import Mathlib

/-!
Shallow embedding of the core of the `vectordb` engine (Rust sources under
`src/`), covering the value system (`src/core/value.rs`), schemas and tuples
(`src/core/tuple.rs`), datasets (`src/core/dataset.rs`), the secondary
indices (`src/core/index/hash.rs`, `src/core/index/vector.rs`), the tensor
kernels (`src/engine/kernels.rs`) and the query engine
(`src/query/logical.rs`, `src/query/planner.rs`, `src/query/physical.rs`).

Modelling conventions:
* `f32` values are modelled by `Fl`: either an exact rational or `nan`.
  Arithmetic is exact (no rounding, no infinities, a single zero and a single
  NaN); every concrete computation appearing in a theorem below is exact in
  `f32` as well, so the abstraction is sound for the stated properties.
  `i64` is modelled by `Int` (no wrap-around) and the `i64 -> f32` cast is
  modelled as the exact inclusion into the rationals.
* `Arc<Schema>` is modelled by `SchemaRef`, a schema paired with an
  allocation identity `ptr : Nat`; `Arc::ptr_eq` compares the `ptr` fields,
  cloning preserves `ptr`, and each place where the Rust code calls
  `Arc::new` takes the fresh identity as an explicit argument.
* Rust `HashMap`s are modelled by insertion-ordered association lists; the
  theorems proved about them do not depend on iteration order beyond what
  the claims allow ("set of rows", "order may differ").
* `Result<T, String>` is modelled by `Except String T`.  Error message
  strings are kept where a theorem mentions them and abbreviated otherwise
  (the Rust messages interpolate runtime data, which no claim depends on).
-/

namespace VectorDb

/-- Three-way comparison derived from a linear order, used to model Rust
`Ord::cmp` (for `i64`, `String`, `bool`) and the non-NaN branch of
`PartialOrd::partial_cmp` for `f32`. -/
def cmp3 {α : Type _} [LinearOrder α] (a b : α) : Ordering :=
  if a < b then .lt else if a = b then .eq else .gt

/-- Model of an `f32` value: an exact rational (`fin`) or NaN (`nan`).
Infinities, signed zero and distinct NaN payloads are not distinguished;
no claim below depends on them. -/
inductive Fl where
  | nan : Fl
  | fin : ℚ → Fl
deriving DecidableEq, Repr

namespace Fl

/-- Addition (`x + y` on `f32`); NaN propagates. -/
def add : Fl → Fl → Fl
  | .fin a, .fin b => .fin (a + b)
  | _, _ => .nan

/-- Subtraction (`x - y` on `f32`); NaN propagates. -/
def sub : Fl → Fl → Fl
  | .fin a, .fin b => .fin (a - b)
  | _, _ => .nan

/-- Multiplication (`x * y` on `f32`); NaN propagates. -/
def mul : Fl → Fl → Fl
  | .fin a, .fin b => .fin (a * b)
  | _, _ => .nan

/-- Division (`x / y` on `f32`); division by zero yields the non-finite
result (`f32` gives an infinity or NaN there; the model collapses all
non-finite results into `nan`, and every division reached by a theorem
below has a provably nonzero finite divisor). -/
def div : Fl → Fl → Fl
  | .fin a, .fin b => if b = 0 then .nan else .fin (a / b)
  | _, _ => .nan

/-- Model of `f32::partial_cmp`: `none` when either side is NaN. -/
def pcmp : Fl → Fl → Option Ordering
  | .fin a, .fin b => some (cmp3 a b)
  | _, _ => none

/-- Model of the boolean `>` on `f32` (false whenever NaN is involved). -/
def gtb (x y : Fl) : Bool := pcmp x y == some .gt

/-- Model of the boolean `<` on `f32` (false whenever NaN is involved). -/
def ltb (x y : Fl) : Bool := pcmp x y == some .lt

/-- Canonical string rendering used by `HashIndex::get_key` for floats
(`f.to_string()` in Rust).  The model renders an integral value as its
integer digits (as Rust does: `1.0f32.to_string() == "1"`) and any other
rational as numerator-slash-denominator; the exact decimal rendering of
non-integral values is schematic, but it is injective on finite values and,
like Rust, never collides with the renderings used for the other `Value`
variants except through the integral-float/int collision. -/
def keyStr : Fl → String
  | .nan => "NaN"
  | .fin q => if q.den = 1 then toString q.num else toString q.num ++ "/" ++ toString q.den

end Fl

/-- Model of `Value` (src/core/value.rs): tagged union of scalars and dense
containers. -/
inductive Value where
  | float : Fl → Value
  | int : Int → Value
  | string : String → Value
  | bool : Bool → Value
  | vector : List Fl → Value
  | matrix : List (List Fl) → Value
  | null : Value
deriving DecidableEq, Repr

/-- Model of `ValueType` (src/core/value.rs). -/
inductive ValueType where
  | float : ValueType
  | int : ValueType
  | string : ValueType
  | bool : ValueType
  | vector : Nat → ValueType
  | matrix : Nat → Nat → ValueType
  | null : ValueType
deriving DecidableEq, Repr

namespace Value

/-- Model of `Value::is_null`. -/
def is_null : Value → Bool
  | .null => true
  | _ => false

/-- Model of `Value::value_type`. -/
def value_type : Value → ValueType
  | .float _ => .float
  | .int _ => .int
  | .string _ => .string
  | .bool _ => .bool
  | .vector v => .vector v.length
  | .matrix m =>
    if m.isEmpty then .matrix 0 0 else .matrix m.length (m.headD []).length
  | .null => .null

/-- Model of `Value::compare` (src/core/value.rs lines 170-186): floats via
`partial_cmp`, same-variant scalars via `Ord::cmp`, `Null` below everything,
Int/Float cross-comparison promoting the integer to `f32` (modelled as the
exact inclusion of `i64` into the rationals; the rounding a cast of an
integer above 2^24 performs is not modelled, and no theorem below compares
such values across variants), containers incomparable. -/
def compare : Value → Value → Option Ordering
  | .float a, .float b => Fl.pcmp a b
  | .int a, .int b => some (cmp3 a b)
  | .string a, .string b => some (cmp3 a b)
  | .bool a, .bool b => some (cmp3 a b)
  | .null, .null => some .eq
  | .null, _ => some .lt
  | _, .null => some .gt
  | .float a, .int b => Fl.pcmp a (.fin b)
  | .int a, .float b => Fl.pcmp (.fin a) b
  | _, _ => none

/-- Model of `Value::matches_type`. -/
def matches_type (v : Value) (t : ValueType) : Bool :=
  match v, t with
  | .float _, .float => true
  | .int _, .int => true
  | .string _, .string => true
  | .bool _, .bool => true
  | .vector xs, .vector dim => xs.length == dim
  | .matrix m, .matrix r c => m.length == r && (m.isEmpty || (m.headD []).length == c)
  | .null, _ => true
  | _, _ => false

/-- Model of `HashIndex::get_key` (src/core/index/hash.rs lines 23-33): the
canonical string key derived from a value.  Integer, boolean and string
renderings match Rust exactly; the float rendering is `Fl.keyStr`; the
vector/matrix renderings stand in for the Rust debug format (no claim
depends on container keys). -/
def get_key : Value → String
  | .int i => toString i
  | .float f => f.keyStr
  | .string s => s
  | .bool b => toString b
  | .vector v => "[" ++ String.intercalate ", " (v.map Fl.keyStr) ++ "]"
  | .matrix m =>
    "[" ++ String.intercalate ", "
      (m.map (fun r => "[" ++ String.intercalate ", " (r.map Fl.keyStr) ++ "]")) ++ "]"
  | .null => "NULL"

end Value

/-- Model of `Field` (src/core/tuple.rs).  The copy of tuple.rs under `src/`
lacks the `is_lazy` flag, but dataset.rs and physical.rs (both under `src/`)
construct and read `Field { .., is_lazy }`, so the effective `Field` of this
repository carries the flag; it is included here, defaulting to `false` as
every literal construction in dataset.rs does for regular columns. -/
structure Field where
  name : String
  value_type : ValueType
  nullable : Bool
  is_lazy : Bool
deriving DecidableEq, Repr

namespace Field

/-- Model of `Field::new`: non-nullable, non-lazy. -/
def new (name : String) (value_type : ValueType) : Field :=
  ⟨name, value_type, false, false⟩

/-- Model of `Field::is_compatible`. -/
def is_compatible (f : Field) (v : Value) : Bool :=
  if v.is_null then f.nullable
  else
    match f.value_type, v.value_type with
    | .float, .float => true
    | .int, .int => true
    | .string, .string => true
    | .bool, .bool => true
    | .vector expected, .vector actual => expected == actual
    | .matrix er ec, .matrix ar ac => er == ar && ec == ac
    | .null, .null => f.nullable
    | _, _ => false

end Field

/-- Model of `Schema` (src/core/tuple.rs): the ordered field list.  The
derived `field_indices` hash map is recomputed on demand by
`get_field_index` below. -/
structure Schema where
  fields : List Field
deriving DecidableEq, Repr

namespace Schema

/-- Model of `Schema::get_field_index`.  The Rust code collects
`(name, index)` pairs into a `HashMap`, so for a duplicated name the later
index overwrites the earlier one; the model therefore returns the last
matching index. -/
def get_field_index (s : Schema) (name : String) : Option Nat :=
  ((s.fields.enum.filter (fun p => p.2.name == name)).getLast?).map (fun p => p.1)

/-- Model of `Schema::get_field`. -/
def get_field (s : Schema) (name : String) : Option Field :=
  (s.get_field_index name).bind (fun i => s.fields.get? i)

/-- Model of `Schema::validate`: length check, then per-field
`is_compatible` (error messages abbreviated). -/
def validate (s : Schema) (values : List Value) : Except String Unit :=
  if values.length ≠ s.fields.length then .error "Value count mismatch"
  else if (s.fields.zip values).all (fun p => p.1.is_compatible p.2) then .ok ()
  else .error "Type mismatch"

end Schema

/-- Model of `Arc<Schema>`: the schema together with its allocation
identity.  `Arc::ptr_eq` compares the `ptr` fields; `clone` preserves
`ptr`; each modelled call to `Arc::new` receives the fresh `ptr` as an
explicit argument. -/
structure SchemaRef where
  ptr : Nat
  val : Schema
deriving DecidableEq, Repr

/-- Model of `Tuple` (src/core/tuple.rs): a schema reference plus values. -/
structure Tuple where
  schema : SchemaRef
  values : List Value
deriving DecidableEq, Repr

namespace Tuple

/-- Model of `Tuple::new`: validate, then construct. -/
def new (schema : SchemaRef) (values : List Value) : Except String Tuple :=
  match schema.val.validate values with
  | .ok _ => .ok ⟨schema, values⟩
  | .error e => .error e

/-- Model of `Tuple::get`: look the field index up in the schema, then
index into the value list. -/
def get (t : Tuple) (name : String) : Option Value :=
  (t.schema.val.get_field_index name).bind (fun i => t.values.get? i)

end Tuple

/-- Model of `HashIndex` (src/core/index/hash.rs): a map from canonical
string keys to lists of row ids, modelled as an insertion-ordered
association list (`HashMap` up to iteration order). -/
structure HashIndex where
  map : List (String × List Nat)
deriving DecidableEq, Repr

namespace HashIndex

/-- Model of `HashIndex::new`. -/
def new : HashIndex := ⟨[]⟩

/-- Model of `HashIndex::add`: push the row id onto the bucket of the
canonical key, creating the bucket if absent.  The Rust method returns
`Ok(())` unconditionally, so the model returns the updated index
directly. -/
def add (idx : HashIndex) (row_id : Nat) (value : Value) : HashIndex :=
  let key := value.get_key
  if idx.map.any (fun p => p.1 == key) then
    ⟨idx.map.map (fun p => if p.1 == key then (p.1, p.2 ++ [row_id]) else p)⟩
  else
    ⟨idx.map ++ [(key, [row_id])]⟩

/-- Bucket of a key, or the empty list (`map.get(&key).cloned().unwrap_or_default()`). -/
def bucket (idx : HashIndex) (key : String) : List Nat :=
  match idx.map.find? (fun p => p.1 == key) with
  | some p => p.2
  | none => []

/-- Model of `HashIndex::lookup`: always succeeds, returning the bucket of
the canonical key or the empty list. -/
def lookup (idx : HashIndex) (value : Value) : Except String (List Nat) :=
  .ok (idx.bucket value.get_key)

/-- Model of `HashIndex::search` (`search_knn` on a hash index). -/
def search (_idx : HashIndex) : Except String (List (Nat × Fl)) :=
  .error "HashIndex does not support vector similarity search"

end HashIndex

/-- Model of `Tensor` (src/core/tensor.rs): id, shape and row-major data.
The optional shared storage (zero-copy feature) is not modelled; no claim
touches it. -/
structure Tensor where
  id : Nat
  shape : List Nat
  data : List Fl
deriving DecidableEq, Repr

namespace Tensor

/-- Model of `Shape::rank`. -/
def rank (t : Tensor) : Nat := t.shape.length

/-- Model of `Shape::num_elements`. -/
def num_elements (t : Tensor) : Nat := t.shape.prod

/-- Model of `Tensor::new`: fails unless `data.len()` matches the element
count of the shape. -/
def new (id : Nat) (shape : List Nat) (data : List Fl) : Except String Tensor :=
  if data.length ≠ shape.prod then .error "Data length does not match shape"
  else .ok ⟨id, shape, data⟩

/-- Well-formedness guaranteed by `Tensor::new`: the data length matches
the shape. -/
def wf (t : Tensor) : Prop := t.data.length = t.shape.prod

instance (t : Tensor) : Decidable t.wf := by
  unfold wf
  infer_instance

end Tensor

/-- Model of `VectorIndex` (src/core/index/vector.rs): the stored
`(row_id, tensor)` pairs. -/
structure VectorIndex where
  vectors : List (Nat × Tensor)
deriving DecidableEq, Repr

namespace VectorIndex

/-- Model of `VectorIndex::new`. -/
def new : VectorIndex := ⟨[]⟩

/-- Model of `VectorIndex::cosine_similarity` (src/core/index/vector.rs
lines 21-39).  The Rust code compares the two L2 norms (square roots of the
sums of squares) with `0.0`; since `sqrt x = 0` exactly when `x = 0` for the
nonnegative sums involved, the model tracks the squared norms, which keeps
every definition rational-valued.  On zero norm the Rust code returns
`Ok(0.0)` (comment: "Handle zero vectors"), modelled verbatim; the success
value on nonzero norms divides by the product of squared norms where Rust
divides by the product of the norms themselves, a monotone reparametrisation
that no claim inspects. -/
def cosine_similarity (t1 t2 : Tensor) : Except String Fl :=
  if t1.shape ≠ t2.shape then .error "Shape mismatch"
  else if t1.data.length ≠ t2.data.length then .error "Data length mismatch"
  else
    let dot_product := (List.zipWith Fl.mul t1.data t2.data).foldl Fl.add (.fin 0)
    let norm_sq_t1 := (t1.data.map (fun x => x.mul x)).foldl Fl.add (.fin 0)
    let norm_sq_t2 := (t2.data.map (fun x => x.mul x)).foldl Fl.add (.fin 0)
    if norm_sq_t1 = .fin 0 ∨ norm_sq_t2 = .fin 0 then .ok (.fin 0)
    else .ok (dot_product.div (norm_sq_t1.mul norm_sq_t2))

/-- Model of `VectorIndex::add`: a `Vector` value is stored as a rank-1
tensor, `Null` is accepted without storing anything, and every other
variant is rejected. -/
def add (idx : VectorIndex) (row_id : Nat) (value : Value) : Except String VectorIndex :=
  match value with
  | .vector data => do
    let tensor ← Tensor.new 0 [data.length] data
    .ok ⟨idx.vectors ++ [(row_id, tensor)]⟩
  | .bool _ => .error "Cannot index Boolean as Vector"
  | .int _ => .error "Cannot index Int as Vector"
  | .string _ => .error "Cannot index String as Vector"
  | .null => .ok idx
  | .float _ => .error "Cannot index Float as Vector"
  | .matrix _ => .error "Cannot index Matrix as Vector"

/-- Model of `VectorIndex::lookup`. -/
def lookup (_idx : VectorIndex) : Except String (List Nat) :=
  .error "VectorIndex does not support exact value lookup"

/-- Comparator used by `search` to sort scored rows: Rust sorts with
`b.1.partial_cmp(&a.1).unwrap_or(Equal)`, i.e. descending by score with
incomparable (NaN) scores treated as ties. -/
def score_le (a b : Nat × Fl) : Prop :=
  (Fl.pcmp b.2 a.2).getD .eq ≠ .gt

instance : DecidableRel score_le := by
  unfold score_le
  infer_instance

/-- Model of `VectorIndex::search`: score every stored vector against the
query via `cosine_similarity`, sort descending by score (Rust uses a stable
sort; the model uses insertion sort, which is also stable — the claims only
use membership), and take the first `k`. -/
def search (idx : VectorIndex) (query : Tensor) (k : Nat) :
    Except String (List (Nat × Fl)) := do
  let scores ← idx.vectors.mapM (fun p => do
    let score ← cosine_similarity query p.2
    pure (p.1, score))
  .ok ((scores.insertionSort score_le).take k)

end VectorIndex

/-- Model of `elementwise_binary_op` (src/engine/kernels.rs lines 9-62):
rank-0 operands broadcast over the other side, two rank-1 operands align to
the longer length with the missing entries replaced by the per-side neutral
element, and every other rank combination is an error.  `a.data[0]` on a
(well-formed) rank-0 tensor is its single element, modelled with `headD`. -/
def elementwise_binary_op (a b : Tensor) (new_id : Nat) (neutral_a neutral_b : Fl)
    (op : Fl → Fl → Except String Fl) : Except String Tensor :=
  match a.rank, b.rank with
  | 0, _ => do
    let scalar := a.data.headD (.fin 0)
    let data ← b.data.mapM (fun y => op scalar y)
    Tensor.new new_id b.shape data
  | _, 0 => do
    let scalar := b.data.headD (.fin 0)
    let data ← a.data.mapM (fun x => op x scalar)
    Tensor.new new_id a.shape data
  | 1, 1 => do
    let len_a := a.data.length
    let len_b := b.data.length
    let len := max len_a len_b
    let data ← (List.range len).mapM (fun i =>
      let x := if i < len_a then a.data.getD i (.fin 0) else neutral_a
      let y := if i < len_b then b.data.getD i (.fin 0) else neutral_b
      op x y)
    Tensor.new new_id [len] data
  | _, _ => .error "Unsupported shapes for element-wise op"

/-- Model of `add_relaxed` (src/engine/kernels.rs lines 195-204): relaxed
element-wise addition with neutral element `0.0` on both sides. -/
def add_relaxed (a b : Tensor) (new_id : Nat) : Except String Tensor :=
  elementwise_binary_op a b new_id (.fin 0) (.fin 0) (fun x y => .ok (x.add y))

/-- Model of `dot_1d` (src/engine/kernels.rs lines 129-138): rank-1 and
equal-shape checks, then the sum of products. -/
def dot_1d (a b : Tensor) : Except String Fl :=
  if a.rank ≠ 1 ∨ b.rank ≠ 1 then .error "dot_1d expects rank-1 tensors"
  else if a.shape ≠ b.shape then .error "Shape mismatch"
  else .ok ((List.zipWith Fl.mul a.data b.data).foldl Fl.add (.fin 0))

/-- Squared L2 norm of the data of a rank-1 tensor (the sum of squares that
`l2_norm_1d` takes the square root of). -/
def l2_norm_sq (data : List Fl) : Fl :=
  (data.map (fun x => x.mul x)).foldl Fl.add (.fin 0)

/-- Model of `l2_norm_1d` (src/engine/kernels.rs lines 141-147).  The Rust
function returns `sqrt` of the sum of squares; since the square root of a
nonnegative sum is zero exactly when the sum is, and the only uses the
claims reach compare the norm against `0.0`, the model returns the squared
norm (see also `VectorIndex.cosine_similarity`). -/
def l2_norm_1d (a : Tensor) : Except String Fl :=
  if a.rank ≠ 1 then .error "l2_norm_1d expects rank-1 tensor"
  else .ok (l2_norm_sq a.data)

/-- Model of `cosine_similarity_1d` (src/engine/kernels.rs lines 170-180):
dot product and the two norms, then an error when either norm is zero.  As
in `l2_norm_1d` the norms are tracked squared, so the success value divides
by the product of the squared norms where Rust divides by the product of
the norms — a reparametrisation no claim inspects; the error behaviour is
identical. -/
def cosine_similarity_1d (a b : Tensor) : Except String Fl := do
  let dot_ab ← dot_1d a b
  let norm_a ← l2_norm_1d a
  let norm_b ← l2_norm_1d b
  if norm_a = .fin 0 ∨ norm_b = .fin 0 then
    .error "Cannot compute cosine similarity with zero-norm vector"
  else
    .ok (dot_ab.div (norm_a.mul norm_b))

/-- Model of `AggregateFunction` (src/query/logical.rs). -/
inductive AggregateFunction where
  | sum : AggregateFunction
  | avg : AggregateFunction
  | count : AggregateFunction
  | min : AggregateFunction
  | max : AggregateFunction
deriving DecidableEq, Repr

/-- Rendering produced by `format!("{:?}", func)` on the derived `Debug`
instance: the capitalized variant name. -/
def AggregateFunction.debugName : AggregateFunction → String
  | .sum => "Sum"
  | .avg => "Avg"
  | .count => "Count"
  | .min => "Min"
  | .max => "Max"

/-- Model of `Expr` (src/query/logical.rs): column reference, literal,
binary operation (operator kept as its source string) and aggregate
application. -/
inductive Expr where
  | column : String → Expr
  | literal : Value → Expr
  | binary : Expr → String → Expr → Expr
  | aggregate : AggregateFunction → Expr → Expr
deriving DecidableEq, Repr

/-- Arithmetic on two `f32` operands inside `evaluate_expression`: the four
operators, anything else yielding `Null`.  The Rust float division here is
unchecked (`l / r`); a zero divisor produces a non-finite `f32`, collapsed
to `nan` by the model (no claim divides floats by zero). -/
def float_binary (op : String) (l r : Fl) : Value :=
  match op with
  | "+" => .float (l.add r)
  | "-" => .float (l.sub r)
  | "*" => .float (l.mul r)
  | "/" => .float (l.div r)
  | _ => .null

/-- Per-element operation of the matrix branches of `evaluate_expression`:
division leaves the left element unchanged when the divisor is zero (the
Rust loop body skips the assignment), and an unknown operator leaves it
unchanged as well. -/
def mat_elem_op (op : String) (x y : Fl) : Fl :=
  match op with
  | "+" => x.add y
  | "-" => x.sub y
  | "*" => x.mul y
  | "/" => if y = .fin 0 then x else x.div y
  | _ => x

/-- Matrix/matrix branch of `evaluate_expression`: `Null` on a dimension
mismatch (row counts, or first-row lengths when nonempty), otherwise
element-wise.  The Rust loops index `r[i][j]` up to `l[i].len()` and would
panic on ragged input that passes the first-row check; the model truncates
instead (no claim evaluates ragged matrices). -/
def matrix_binary (op : String) (l r : List (List Fl)) : Value :=
  if l.length ≠ r.length ∨ (0 < l.length ∧ (l.headD []).length ≠ (r.headD []).length) then
    .null
  else
    .matrix (List.zipWith (fun lr rr => List.zipWith (mat_elem_op op) lr rr) l r)

/-- Matrix/scalar branches of `evaluate_expression`: broadcast the scalar
over every element. -/
def matrix_scalar (op : String) (m : List (List Fl)) (s : Fl) : Value :=
  .matrix (m.map (fun row => row.map (fun x => mat_elem_op op x s)))

/-- Model of `evaluate_expression` (src/query/physical.rs lines 583-704):
`Column` looks up by name (missing gives `Null`), `Literal` is constant,
`BinaryExpr` applies the arithmetic rules (int/int stays int with truncating
division and `Null` on division by zero; any float promotes to float;
matrix/matrix element-wise with `Null` on shape mismatch; matrix/scalar
broadcasts; everything else `Null`), and a nested `AggregateExpr` is
`Null`.  Integer arithmetic is exact (the wrap-around of a release-mode
`i64` overflow is not modelled). -/
def evaluate_expression : Expr → Tuple → Value
  | .column name, row => (row.get name).getD .null
  | .literal v, _ => v
  | .binary left op right, row =>
    let left_val := evaluate_expression left row
    let right_val := evaluate_expression right row
    match left_val, right_val with
    | .int l, .int r =>
      match op with
      | "+" => .int (l + r)
      | "-" => .int (l - r)
      | "*" => .int (l * r)
      | "/" => if r ≠ 0 then .int (l.tdiv r) else .null
      | _ => .null
    | .float l, .float r => float_binary op l r
    | .int l, .float r => float_binary op (.fin l) r
    | .float l, .int r => float_binary op l (.fin r)
    | .matrix l, .matrix r => matrix_binary op l r
    | .matrix m, .int s => matrix_scalar op m (.fin s)
    | .matrix m, .float s => matrix_scalar op m s
    | _, _ => .null
  | .aggregate _ _, _ => .null

/-- Model of `LogicalPlan` (src/query/logical.rs lines 35-73). -/
inductive LogicalPlan where
  | scan : String → SchemaRef → LogicalPlan
  | filter : LogicalPlan → Expr → LogicalPlan
  | project : LogicalPlan → List String → LogicalPlan
  | vectorSearch : LogicalPlan → String → Tensor → Nat → LogicalPlan
  | sort : LogicalPlan → String → Bool → LogicalPlan
  | limit : LogicalPlan → Nat → LogicalPlan
  | aggregate : LogicalPlan → List Expr → List Expr → LogicalPlan
deriving DecidableEq, Repr

/-- Model of `infer_expr_type_full` (src/query/logical.rs lines 151-175). -/
def infer_expr_type_full (e : Expr) (schema : Schema) : ValueType :=
  match e with
  | .column name => ((schema.get_field name).map (fun f => f.value_type)).getD .null
  | .literal v => v.value_type
  | .binary l _ r =>
    match infer_expr_type_full l schema, infer_expr_type_full r schema with
    | .matrix r c, _ => .matrix r c
    | _, .matrix r c => .matrix r c
    | .vector d, _ => .vector d
    | _, .vector d => .vector d
    | .float, _ => .float
    | _, .float => .float
    | .int, .int => .int
    | _, _ => .int
  | .aggregate _ _ => .int

/-- Group-key loop body of the `Aggregate` branch of `LogicalPlan::schema`
(src/query/logical.rs lines 100-116): push a field only for a `Column`
expression, with the placeholder type `String` the source uses ("Hack: for
now use placeholder"). -/
def group_field_step (fs : List Field) (e : Expr) : List Field :=
  match e with
  | .column name => fs ++ [Field.new name .string]
  | _ => fs

/-- Aggregate-field loop body of the `Aggregate` branch of
`LogicalPlan::schema` (src/query/logical.rs lines 117-143): push a field
only for an `AggregateExpr`, named by the `Debug` rendering of the
function, typed `Int` by default, `Float` for `Avg`, and inferred from the
input schema for `Sum`/`Min`/`Max`. -/
def aggr_field_step (input_schema : Schema) (fs : List Field) (e : Expr) : List Field :=
  match e with
  | .aggregate func inner =>
    let typ : ValueType :=
      match func with
      | .sum => infer_expr_type_full inner input_schema
      | .min => infer_expr_type_full inner input_schema
      | .max => infer_expr_type_full inner input_schema
      | .avg => .float
      | .count => .int
    fs ++ [Field.new func.debugName typ]
  | _ => fs

/-- Model of `LogicalPlan::schema` (src/query/logical.rs lines 76-147).
Derived schemas are freshly allocated `Arc`s in Rust; their allocation
identity is irrelevant to every claim, so the model returns the schema
value.  The `Aggregate` branch runs the two field-pushing loops above over
one growing field vector. -/
def LogicalPlan.schema : LogicalPlan → Schema
  | .scan _ s => s.val
  | .filter input _ => input.schema
  | .project input columns =>
    let input_schema := input.schema
    ⟨columns.filterMap (fun name => input_schema.get_field name)⟩
  | .vectorSearch input _ _ _ => input.schema
  | .sort input _ _ => input.schema
  | .limit input _ => input.schema
  | .aggregate input group_expr aggr_expr =>
    ⟨aggr_expr.foldl (aggr_field_step input.schema)
      (group_expr.foldl group_field_step [])⟩

/-- Model of `IndexType` (src/core/index/mod.rs). -/
inductive IndexType where
  | hash : IndexType
  | vector : IndexType
deriving DecidableEq, Repr

/-- Model of `Box<dyn Index>`: the two concrete index implementations. -/
inductive IndexBox where
  | hash : HashIndex → IndexBox
  | vector : VectorIndex → IndexBox
deriving DecidableEq, Repr

namespace IndexBox

/-- Dynamic dispatch of `Index::add`. -/
def add (b : IndexBox) (row_id : Nat) (value : Value) : Except String IndexBox :=
  match b with
  | .hash h => .ok (.hash (h.add row_id value))
  | .vector vi => (vi.add row_id value).map IndexBox.vector

/-- Dynamic dispatch of `Index::lookup`. -/
def lookup (b : IndexBox) (value : Value) : Except String (List Nat) :=
  match b with
  | .hash h => h.lookup value
  | .vector vi => vi.lookup

/-- Dynamic dispatch of `Index::index_type`. -/
def index_type : IndexBox → IndexType
  | .hash _ => .hash
  | .vector _ => .vector

end IndexBox

/-- Insertion into a `HashMap` modelled as an association list: overwrite
the existing binding or append a new one. -/
def map_insert {β : Type _} (m : List (String × β)) (k : String) (v : β) :
    List (String × β) :=
  if m.any (fun p => p.1 == k) then
    m.map (fun p => if p.1 == k then (k, v) else p)
  else
    m ++ [(k, v)]

/-- Model of `Dataset` (src/core/dataset.rs).  Of the metadata only
`row_count` is represented (timestamps, version, statistics and extras are
untouched by the claims); the effect of `update_stats` on it is
`row_count := rows.length`. -/
structure Dataset where
  id : Nat
  schema : SchemaRef
  rows : List Tuple
  row_count : Nat
  indices : List (String × IndexBox)
  lazy_expressions : List (String × Expr)
deriving DecidableEq, Repr

namespace Dataset

/-- Model of `Dataset::new`: empty dataset over the given schema. -/
def new (id : Nat) (schema : SchemaRef) : Dataset :=
  ⟨id, schema, [], 0, [], []⟩

/-- Model of `Dataset::with_rows`: every row must hold the very same
`Arc<Schema>` (pointer identity). -/
def with_rows (id : Nat) (schema : SchemaRef) (rows : List Tuple) :
    Except String Dataset :=
  if rows.all (fun r => r.schema.ptr == schema.ptr) then
    .ok ⟨id, schema, rows, rows.length, [], []⟩
  else
    .error "Row has incompatible schema"

/-- Model of `Dataset::get_index`. -/
def get_index (ds : Dataset) (column_name : String) : Option IndexBox :=
  (ds.indices.find? (fun p => p.1 == column_name)).map (fun p => p.2)

/-- Model of `Dataset::get_rows_by_ids`: rows at the in-range ids, in id
order, silently skipping out-of-range ids. -/
def get_rows_by_ids (ds : Dataset) (row_ids : List Nat) : List Tuple :=
  row_ids.filterMap (fun i => ds.rows.get? i)

/-- Population loop of `Dataset::create_index`: add each existing row
(by position) whose value at the column is present. -/
def populate_index (column_name : String) :
    Nat → List Tuple → IndexBox → Except String IndexBox
  | _, [], idx => .ok idx
  | i, row :: rest, idx => do
    let idx' ← match row.get column_name with
      | some val => idx.add i val
      | none => .ok idx
    populate_index column_name (i + 1) rest idx'

/-- Model of `Dataset::create_index`: column-existence check, population
with the existing rows, then insertion into the index map. -/
def create_index (ds : Dataset) (column_name : String) (index : IndexBox) :
    Except String Dataset := do
  if ¬ ds.schema.val.fields.any (fun f => f.name == column_name) then
    .error "Column not found in schema"
  else do
    let idx ← populate_index column_name 0 ds.rows index
    .ok { ds with indices := map_insert ds.indices column_name idx }

/-- Model of `Dataset::add_row`: pointer-identity schema check, per-index
update with the new row id, append, stats refresh. -/
def add_row (ds : Dataset) (row : Tuple) : Except String Dataset :=
  if row.schema.ptr ≠ ds.schema.ptr then
    .error "Row schema does not match dataset schema"
  else do
    let row_id := ds.rows.length
    let indices ← ds.indices.mapM (fun p => do
      match row.get p.1 with
      | some value => do
        let b ← p.2.add row_id value
        pure (p.1, b)
      | none => pure p)
    let rows := ds.rows ++ [row]
    .ok { ds with indices := indices, rows := rows, row_count := rows.length }

/-- Model of `Dataset::evaluate_lazy_column`. -/
def evaluate_lazy_column (ds : Dataset) (column_name : String) (row : Tuple) :
    Option Value :=
  (ds.lazy_expressions.find? (fun q => q.1 == column_name)).map
    (fun q => evaluate_expression q.2 row)

/-- Body of the lazy-evaluation loop shared by
`evaluate_lazy_columns_in_row`, `get_row_evaluated` and
`materialize_lazy_columns`: replace the stored placeholder of a lazy field
(whose expression is registered) by its evaluation against the row. -/
def lazy_step (ds : Dataset) (row : Tuple) (acc : List Value) (p : Nat × Field) :
    List Value :=
  if p.2.is_lazy ∧ p.1 < acc.length then
    match ds.lazy_expressions.find? (fun q => q.1 == p.2.name) with
    | some q => acc.set p.1 (evaluate_expression q.2 row)
    | none => acc
  else acc

/-- Loop shared by `evaluate_lazy_columns_in_row`, `get_row_evaluated` and
`materialize_lazy_columns`, over the enumerated schema fields. -/
def eval_lazy_values (ds : Dataset) (row : Tuple) : List Value :=
  ds.schema.val.fields.enum.foldl (lazy_step ds row) row.values

/-- Model of `Dataset::add_computed_column` (src/core/dataset.rs lines
477-550).  The fresh `Arc<Schema>` allocation receives its identity as
`new_ptr`.  The new field is nullable and lazy exactly when `lazy` is set;
the lazy branch stores `Null` placeholders and registers the expression,
the eager branch validates and stores the supplied computed values. -/
def add_computed_column (ds : Dataset) (new_ptr : Nat) (column_name : String)
    (value_type : ValueType) (computed_values : List Value) (expression : Expr)
    (lazy : Bool) : Except String Dataset := do
  if (ds.schema.val.get_field column_name).isSome then
    .error "Column already exists"
  else do
    let new_field : Field := ⟨column_name, value_type, lazy, lazy⟩
    let new_schema : SchemaRef := ⟨new_ptr, ⟨ds.schema.val.fields ++ [new_field]⟩⟩
    if lazy then do
      let new_rows ← ds.rows.mapM (fun row =>
        Tuple.new new_schema (row.values ++ [.null]))
      .ok { ds with
        schema := new_schema,
        rows := new_rows,
        row_count := new_rows.length,
        lazy_expressions := map_insert ds.lazy_expressions column_name expression }
    else do
      if computed_values.length ≠ ds.rows.length then
        .error "Computed values count does not match row count"
      else if ¬ computed_values.all (fun v => v.matches_type new_field.value_type) then
        .error "Computed value type mismatch"
      else do
        let new_rows ← (ds.rows.zip computed_values).mapM (fun p =>
          Tuple.new new_schema (p.1.values ++ [p.2]))
        .ok { ds with
          schema := new_schema,
          rows := new_rows,
          row_count := new_rows.length }

/-- Model of `Dataset::materialize_lazy_columns` (src/core/dataset.rs lines
584-637).  When lazy columns exist, the rebuilt rows are constructed with
`Tuple::new(self.schema.clone(), ..)` — the OLD `Arc` — while the dataset
then switches to a freshly allocated schema (identity `new_ptr`) with the
`is_lazy` flags cleared; registry entries for the materialized columns are
dropped and stats refreshed. -/
def materialize_lazy_columns (ds : Dataset) (new_ptr : Nat) :
    Except String Dataset := do
  let lazy_columns := (ds.schema.val.fields.filter (fun f => f.is_lazy)).map
    (fun f => f.name)
  if lazy_columns.isEmpty then .ok ds
  else do
    let new_rows ← ds.rows.mapM (fun row => Tuple.new ds.schema (eval_lazy_values ds row))
    let new_fields := ds.schema.val.fields.map (fun f => { f with is_lazy := false })
    let new_schema : SchemaRef := ⟨new_ptr, ⟨new_fields⟩⟩
    .ok { ds with
      rows := new_rows,
      schema := new_schema,
      lazy_expressions := ds.lazy_expressions.filter
        (fun q => ¬ lazy_columns.contains q.1),
      row_count := new_rows.length }

end Dataset

/-- Model of the planner-local `eval_value` (src/query/planner.rs lines
220-226): only columns and literals evaluate inside a predicate. -/
def eval_value (e : Expr) (row : Tuple) : Option Value :=
  match e with
  | .column name => row.get name
  | .literal v => some v
  | _ => none

/-- Model of the planner-local `evaluate_expr` (src/query/planner.rs lines
196-218): the predicate interpreter used by `FilterExec`.  Only a top-level
binary comparison is supported; both sides must evaluate, the comparison is
`Value::compare`, and unsupported operators or incomparable values yield
`false`. -/
def evaluate_expr (e : Expr) (row : Tuple) : Bool :=
  match e with
  | .binary left op right =>
    match eval_value left row, eval_value right row with
    | some l, some r =>
      let ord := l.compare r
      match op with
      | "=" => ord == some .eq
      | "!=" => ord.isSome && ord != some .eq
      | ">" => ord == some .gt
      | "<" => ord == some .lt
      | _ => false
    | _, _ => false
  | _ => false

/-- Model of `Planner::try_optimize_filter` (src/query/planner.rs lines
163-193), at dataset level: for a predicate of shape
`Column(c) = Literal(v)` over a scanned dataset that has a Hash index on
`c`, return the `IndexScanExec` parameters `(c, v)`; otherwise `none` (the
planner then emits `SeqScanExec` under a `FilterExec`). -/
def try_optimize_filter (ds : Dataset) (predicate : Expr) : Option (String × Value) :=
  match predicate with
  | .binary (.column col_name) op (.literal val) =>
    if op = "=" then
      match ds.get_index col_name with
      | some idx => if idx.index_type = .hash then some (col_name, val) else none
      | none => none
    else none
  | _ => none

/-- Model of `evaluate_lazy_columns_in_row` (src/query/physical.rs lines
7-21): evaluate the lazy fields against the row and rebuild the tuple with
the dataset schema handle. -/
def evaluate_lazy_columns_in_row (ds : Dataset) (row : Tuple) : Except String Tuple :=
  Tuple.new ds.schema (ds.eval_lazy_values row)

/-- Model of `SeqScanExec::execute` (src/query/physical.rs lines 39-53), at
dataset level: all rows, each with lazy columns evaluated. -/
def seq_scan_exec (ds : Dataset) : Except String (List Tuple) :=
  ds.rows.mapM (evaluate_lazy_columns_in_row ds)

/-- Model of `IndexScanExec::execute` (src/query/physical.rs lines
94-116), at dataset level: look the value up in the named index, fetch the
matching rows, evaluate lazy columns. -/
def index_scan_exec (ds : Dataset) (column : String) (value : Value) :
    Except String (List Tuple) :=
  match ds.get_index column with
  | none => .error "Index not found on column"
  | some index => do
    let row_ids ← index.lookup value
    (ds.get_rows_by_ids row_ids).mapM (evaluate_lazy_columns_in_row ds)

/-- Model of `FilterExec::execute` (src/query/physical.rs lines 70-83):
keep the input rows satisfying the predicate. -/
def filter_exec (predicate : Expr) (input : Except String (List Tuple)) :
    Except String (List Tuple) :=
  input.map (List.filter (fun row => evaluate_expr predicate row))

/-- Accumulator initialization of `AggregateExec::execute`
(src/query/physical.rs lines 299-367), run once per group on its first row:
the regular accumulator slots paired with the `(sum, count)` slots kept for
`Avg`.  A `Sum`/`Avg` over a value that is a vector or matrix starts from a
zero of the same shape (a matrix zero uses the first-row length for every
row, as the Rust `vec![vec![0.0; c]; r]` does). -/
def agg_init (aggr_expr : List Expr) (row : Tuple) :
    List Value × List (Value × Nat) :=
  aggr_expr.foldl (fun acc e =>
    match e with
    | .aggregate func inner =>
      match func with
      | .count => (acc.1 ++ [.int 0], acc.2 ++ [(.null, 0)])
      | .sum =>
        let z : Value :=
          match evaluate_expression inner row with
          | .vector v => .vector (List.replicate v.length (.fin 0))
          | .matrix m =>
            if m.isEmpty then .matrix []
            else .matrix (List.replicate m.length
              (List.replicate (m.headD []).length (.fin 0)))
          | _ => .int 0
        (acc.1 ++ [z], acc.2 ++ [(.null, 0)])
      | .min => (acc.1 ++ [.null], acc.2 ++ [(.null, 0)])
      | .max => (acc.1 ++ [.null], acc.2 ++ [(.null, 0)])
      | .avg =>
        let initial_sum : Value :=
          match evaluate_expression inner row with
          | .vector v => .vector (List.replicate v.length (.fin 0))
          | .matrix m =>
            if m.isEmpty then .matrix []
            else .matrix (List.replicate m.length
              (List.replicate (m.headD []).length (.fin 0)))
          | _ => .float (.fin 0)
        (acc.1 ++ [.null], acc.2 ++ [(initial_sum, 0)])
    | _ => (acc.1 ++ [.null], acc.2 ++ [(.null, 0)])) ([], [])

/-- `Count` accumulator step: increment when the slot is an `Int` (it
always is), otherwise leave it. -/
def count_update (cur : Value) : Value :=
  match cur with
  | .int c => .int (c + 1)
  | c => c

/-- `Sum` accumulator step (src/query/physical.rs lines 385-416): numeric
addition with Int-to-Float promotion, element-wise addition for vectors and
matrices of matching shape, and no change otherwise.  The matrix loops
would panic on ragged input passing the first-row check; the model
truncates instead. -/
def sum_update (cur val : Value) : Value :=
  match cur, val with
  | .int sum, .int v => .int (sum + v)
  | .float sum, .float v => .float (sum.add v)
  | .int sum, .float v => .float ((Fl.fin sum).add v)
  | .float sum, .int v => .float (sum.add (.fin v))
  | .vector sum_vec, .vector v =>
    if sum_vec.length = v.length then .vector (List.zipWith Fl.add sum_vec v)
    else .vector sum_vec
  | .matrix sum_mat, .matrix v =>
    if sum_mat.length = v.length ∧ ¬ sum_mat.isEmpty ∧
        (sum_mat.headD []).length = (v.headD []).length then
      .matrix (List.zipWith (List.zipWith Fl.add) sum_mat v)
    else .matrix sum_mat
  | c, _ => c

/-- `Avg` accumulator step (src/query/physical.rs lines 417-472): bump the
count and add the value into the running sum, promoting an `Int` sum slot
to `Float`; a sum slot of any other shape takes the value itself. -/
def avg_update (acc : Value × Nat) (val : Value) : Value × Nat :=
  let count := acc.2 + 1
  let sum : Value :=
    match acc.1, val with
    | .float s, .int v => .float (s.add (.fin v))
    | .float s, .float v => .float (s.add v)
    | .float s, _ => .float s
    | .int s, .int v => .float ((Fl.fin s).add (.fin v))
    | .int s, .float v => .float ((Fl.fin s).add v)
    | .int s, _ => .int s
    | .vector s, .vector v =>
      if s.length = v.length then .vector (List.zipWith Fl.add s v) else .vector s
    | .vector s, _ => .vector s
    | .matrix s, .matrix v =>
      if s.length = v.length ∧ ¬ s.isEmpty ∧
          (s.headD []).length = (v.headD []).length then
        .matrix (List.zipWith (List.zipWith Fl.add) s v)
      else .matrix s
    | .matrix s, _ => .matrix s
    | _, v => v
  (sum, count)

/-- `Max` accumulator step (src/query/physical.rs lines 473-501): first
value replaces the initial `Null`; a `Null` value is skipped; same-length
vectors update element-wise by `f32` `>`; otherwise replace when
`Value::compare` says strictly greater. -/
def max_update (cur val : Value) : Value :=
  match cur, val with
  | .null, v => v
  | c, v =>
    if v.is_null then c
    else
      match c, v with
      | .vector cv, .vector nv =>
        if cv.length = nv.length then
          .vector (List.zipWith (fun x n => if n.gtb x then n else x) cv nv)
        else .vector cv
      | c, n => if n.compare c == some .gt then n else c

/-- `Min` accumulator step, symmetric to `max_update`. -/
def min_update (cur val : Value) : Value :=
  match cur, val with
  | .null, v => v
  | c, v =>
    if v.is_null then c
    else
      match c, v with
      | .vector cv, .vector nv =>
        if cv.length = nv.length then
          .vector (List.zipWith (fun x n => if n.ltb x then n else x) cv nv)
        else .vector cv
      | c, n => if n.compare c == some .lt then n else c

/-- Per-row accumulator update of `AggregateExec::execute` (src/query/
physical.rs lines 370-526): dispatch on the aggregate function of each
aggregate expression; non-aggregate expressions are skipped. -/
def agg_update (aggr_expr : List Expr) (row : Tuple)
    (state : List Value × List (Value × Nat)) :
    List Value × List (Value × Nat) :=
  aggr_expr.enum.foldl (fun st (p : Nat × Expr) =>
    match p.2 with
    | .aggregate func inner =>
      let val := evaluate_expression inner row
      match func with
      | .count => (st.1.set p.1 (count_update (st.1.getD p.1 .null)), st.2)
      | .sum => (st.1.set p.1 (sum_update (st.1.getD p.1 .null) val), st.2)
      | .avg => (st.1, st.2.set p.1 (avg_update (st.2.getD p.1 (.null, 0)) val))
      | .max => (st.1.set p.1 (max_update (st.1.getD p.1 .null) val), st.2)
      | .min => (st.1.set p.1 (min_update (st.1.getD p.1 .null) val), st.2)
    | _ => st) state

/-- Grouping loop of `AggregateExec::execute`: build the map from group
key (the evaluated group expressions) to accumulator state, initializing a
group on its first row and updating on every row.  The Rust `HashMap` is
modelled as an insertion-ordered association list; output order is not
relied on by any claim. -/
def agg_groups (group_expr aggr_expr : List Expr) (rows : List Tuple) :
    List (List Value × (List Value × List (Value × Nat))) :=
  rows.foldl (fun groups row =>
    let key := group_expr.map (fun e => evaluate_expression e row)
    if groups.any (fun g => g.1 == key) then
      groups.map (fun g =>
        if g.1 == key then (g.1, agg_update aggr_expr row g.2) else g)
    else
      groups ++ [(key, agg_update aggr_expr row (agg_init aggr_expr row))]) []

/-- `Avg` emission (src/query/physical.rs lines 538-564): divide the final
sum by the final count (element-wise for containers), `Null` on a zero
count. -/
def avg_finalize (sum : Value) (count : Nat) : Value :=
  if 0 < count then
    match sum with
    | .float s => .float (s.div (.fin count))
    | .int s => .float ((Fl.fin s).div (.fin count))
    | .vector v => .vector (v.map (fun x => x.div (.fin count)))
    | .matrix m => .matrix (m.map (fun r => r.map (fun x => x.div (.fin count))))
    | _ => .null
  else .null

/-- Final accumulator values of one group: `Avg` slots are computed from
their `(sum, count)` state, every other slot is taken as accumulated. -/
def agg_finalize (aggr_expr : List Expr) (accs : List Value)
    (avg_accs : List (Value × Nat)) : List Value :=
  aggr_expr.enum.map (fun p =>
    match p.2 with
    | .aggregate func _ =>
      match func with
      | .avg =>
        let sc := avg_accs.getD p.1 (.null, 0)
        avg_finalize sc.1 sc.2
      | _ => accs.getD p.1 .null
    | _ => accs.getD p.1 .null)

/-- Model of `AggregateExec::execute` (src/query/physical.rs lines
263-580): an empty input returns no rows at all; otherwise the rows are
grouped, accumulated, finalized, and each output row is the group key
followed by the finalized aggregates, validated against the operator
schema. -/
def aggregate_exec (group_expr aggr_expr : List Expr) (schema : SchemaRef)
    (rows : List Tuple) : Except String (List Tuple) :=
  if rows.isEmpty then .ok []
  else
    (agg_groups group_expr aggr_expr rows).mapM (fun g =>
      Tuple.new schema (g.1 ++ agg_finalize aggr_expr g.2.1 g.2.2))

/-! ### Verification helpers and concrete instances -/

/-- Hash index resulting from a sequence of `HashIndex::add` calls. -/
def build_hash_index (adds : List (Nat × Value)) : HashIndex :=
  adds.foldl (fun idx p => idx.add p.1 p.2) HashIndex.new

/-- Vector index resulting from a sequence of `VectorIndex::add` calls
(failing as soon as one call fails, as a caller propagating the `Result`
would). -/
def build_vector_index (adds : List (Nat × Value)) : Except String VectorIndex :=
  adds.foldlM (fun idx p => idx.add p.1 p.2) VectorIndex.new

/-- Pure form of `populate_index` specialized to a hash index, whose `add`
never fails: the fold `Dataset::create_index` performs over the existing
rows, numbering them from `i`. -/
def hash_populate (c : String) : Nat → List Tuple → HashIndex → HashIndex
  | _, [], h => h
  | i, row :: rest, h =>
    hash_populate c (i + 1) rest
      (match row.get c with
       | some val => h.add i val
       | none => h)

/-- Row ids (numbered from `i`) whose value at column `c` canonicalizes to
the key `k` — the reference description of a hash-index bucket. -/
def matching_ids (c k : String) : Nat → List Tuple → List Nat
  | _, [] => []
  | i, row :: rest =>
    (match row.get c with
     | some u => if u.get_key = k then [i] else []
     | none => []) ++ matching_ids c k (i + 1) rest

/-- Condition under which the hash-index canonicalization agrees with the
predicate comparison for the literal `v` on column `c`: each stored value
shares `v`'s canonical key exactly when it compares equal to `v`.  It holds
whenever `v` and all stored column values are of one same non-float scalar
variant, and fails for instance for a stored `Null` against the literal
`String "NULL"` (both canonicalize to the key `"NULL"`). -/
def key_faithful (c : String) (v : Value) (rows : List Tuple) : Bool :=
  rows.all (fun row =>
    ((row.get c).map (fun u =>
      (u.get_key == v.get_key) == (u.compare v == some Ordering.eq))).getD true)

/-- Declarative restatement of the aggregate output-schema rule actually
implemented (group-key fields for `Column` group expressions, placeholder
type `String`; aggregate fields named by the `Debug` rendering of the
function with the `Count`→Int / `Avg`→Float / `Sum,Min,Max`→inferred
typing), for comparison with the imperative loops of
`LogicalPlan.schema`. -/
def aggregate_schema_spec (input_schema : Schema) (group_expr aggr_expr : List Expr) :
    Schema :=
  ⟨(group_expr.filterMap (fun e =>
      match e with
      | .column name => some (Field.new name .string)
      | _ => none)) ++
    (aggr_expr.filterMap (fun e =>
      match e with
      | .aggregate func inner =>
        let typ : ValueType :=
          match func with
          | .sum => infer_expr_type_full inner input_schema
          | .min => infer_expr_type_full inner input_schema
          | .max => infer_expr_type_full inner input_schema
          | .avg => .float
          | .count => .int
        some (Field.new func.debugName typ)
      | _ => none))⟩

/-- Schema of the scenario dataset `sales(region: String, amount: Int)`,
with allocation identity 0. -/
def sales_schema : SchemaRef :=
  ⟨0, ⟨[Field.new "region" .string, Field.new "amount" .int]⟩⟩

/-- Rows of the scenario dataset `sales`. -/
def sales_rows : List Tuple :=
  [⟨sales_schema, [.string "N", .int 100]⟩,
   ⟨sales_schema, [.string "S", .int 200]⟩,
   ⟨sales_schema, [.string "N", .int 150]⟩,
   ⟨sales_schema, [.string "S", .int 250]⟩]

/-- The scenario dataset `sales` (no indices, no lazy columns). -/
def sales_ds : Dataset := ⟨1, sales_schema, sales_rows, 4, [], []⟩

/-- Logical plan `Scan(sales) → Aggregate(group=[region], aggr=[Avg(amount)])`. -/
def sales_plan : LogicalPlan :=
  .aggregate (.scan "sales" sales_schema)
    [.column "region"] [.aggregate .avg (.column "amount")]

/-- Operator schema the planner hands `AggregateExec`
(`logical_plan.schema()`, wrapped in a fresh `Arc` with identity 2). -/
def sales_out_schema : SchemaRef := ⟨2, sales_plan.schema⟩

/-- Aggregate plan grouping by the Int-typed column `amount`, used to
exhibit the actual aggregate output schema. -/
def sales_plan_by_amount : LogicalPlan :=
  .aggregate (.scan "sales" sales_schema) [.column "amount"]
    [.aggregate .avg (.column "amount")]

/-- Claim predicate: the two values are of one same scalar variant. -/
def same_scalar_variant (v w : Value) : Prop :=
  match v, w with
  | .int _, .int _ => True
  | .float _, .float _ => True
  | .string _, .string _ => True
  | .bool _, .bool _ => True
  | _, _ => False

/-- Claim predicate: the value is the float NaN. -/
def has_nan : Value → Prop
  | .float .nan => True
  | _ => False

/-- Schema of the C1 counterexample dataset: one nullable String column
`c`. -/
def null_schema : SchemaRef := ⟨0, ⟨[⟨"c", .string, true, false⟩]⟩⟩

/-- The single row of the counterexample dataset: its `c` value is
`Null`. -/
def null_row : Tuple := ⟨null_schema, [.null]⟩

/-- The counterexample dataset after `create_index("c", HashIndex::new())`:
the hash index canonicalizes the stored `Null` to the key `"NULL"`. -/
def null_ds : Dataset :=
  ⟨3, null_schema, [null_row], 1,
    [("c", .hash (hash_populate "c" 0 [null_row] .new))], []⟩

/-- Schema of the C1 witness dataset: one Int column `c`. -/
def int_schema : SchemaRef := ⟨0, ⟨[Field.new "c" .int]⟩⟩

/-- Rows of the C1 witness dataset. -/
def int_rows : List Tuple :=
  [⟨int_schema, [.int 1]⟩, ⟨int_schema, [.int 2]⟩, ⟨int_schema, [.int 1]⟩]

/-- The C1 witness dataset, hash-indexed on `c`. -/
def int_ds : Dataset :=
  ⟨4, int_schema, int_rows, 3,
    [("c", .hash (hash_populate "c" 0 int_rows .new))], []⟩

/-- Schema of the C7 scenario dataset: one Int column `a` (allocation
identity 0). -/
def c7_schema : SchemaRef := ⟨0, ⟨[Field.new "a" .int]⟩⟩

/-- C7 scenario: create `t(a: Int)`, insert the row `(1)`, add the lazy
computed column `c = a + a` (fresh schema identity 1), then materialize the
lazy columns (fresh schema identity 2). -/
def c7_pipeline : Except String Dataset :=
  (Dataset.new 0 c7_schema).add_row ⟨c7_schema, [.int 1]⟩ >>= fun ds =>
    ds.add_computed_column 1 "c" .int []
      (.binary (.column "a") "+" (.column "a")) true >>= fun ds =>
      ds.materialize_lazy_columns 2

/-- The dataset `c7_pipeline` produces: the dataset holds the fresh schema
(identity 2, `is_lazy` cleared), but its row still holds the schema `Arc`
allocated by `add_computed_column` (identity 1, `is_lazy` still set),
because `materialize_lazy_columns` rebuilds the rows with
`self.schema.clone()` before swapping in the new schema. -/
def c7_result : Dataset :=
  ⟨0,
    ⟨2, ⟨[Field.new "a" .int, ⟨"c", .int, true, false⟩]⟩⟩,
    [⟨⟨1, ⟨[Field.new "a" .int, ⟨"c", .int, true, true⟩]⟩⟩, [.int 1, .int 2]⟩],
    1, [], []⟩

deriving instance DecidableEq for Except

/-! ### Theorems: three-way comparison helpers -/

theorem cmp3_eq_lt {α : Type _} [LinearOrder α] {a b : α} :
    cmp3 a b = .lt ↔ a < b := by
  unfold cmp3
  split
  · simp [*]
  · split <;> simp [*]

theorem cmp3_eq_eq {α : Type _} [LinearOrder α] {a b : α} :
    cmp3 a b = .eq ↔ a = b := by
  unfold cmp3
  split
  · rename_i h
    simp
    exact fun he => absurd he.symm (ne_of_gt h)
  · split <;> simp [*]

theorem cmp3_eq_gt {α : Type _} [LinearOrder α] {a b : α} :
    cmp3 a b = .gt ↔ b < a := by
  unfold cmp3
  split
  · rename_i h
    simp
    exact le_of_lt h
  · split
    · rename_i h
      simp [h]
    · rename_i h1 h2
      simp
      exact lt_of_le_of_ne (le_of_not_lt h1) (fun he => h2 he.symm)

theorem cmp3_self {α : Type _} [LinearOrder α] (a : α) : cmp3 a a = .eq := by
  simp [cmp3]

theorem cmp3_swap {α : Type _} [LinearOrder α] (a b : α) :
    cmp3 b a = (cmp3 a b).swap := by
  rcases lt_trichotomy a b with h | h | h
  · rw [cmp3_eq_lt.mpr h]
    rw [cmp3_eq_gt.mpr h]
    rfl
  · subst h
    rw [cmp3_self]
    rfl
  · rw [cmp3_eq_lt.mpr h]
    rw [cmp3_eq_gt.mpr h]
    rfl

/-! ### Theorems: Except-monad computation helpers -/

theorem ok_bind {α β : Type _} (x : α) (f : α → Except String β) :
    (Except.ok x >>= f) = f x := rfl

theorem pure_bind_ex {α β : Type _} (x : α) (f : α → Except String β) :
    ((pure x : Except String α) >>= f) = f x := rfl

theorem except_pure {α : Type _} (x : α) :
    (pure x : Except String α) = .ok x := rfl

theorem mapM_ok {α β : Type _} (f : α → β) :
    ∀ l : List α, (l.mapM (fun a => (Except.ok (f a) : Except String β))) = .ok (l.map f)
  | [] => rfl
  | x :: xs => by
    rw [List.mapM_cons, mapM_ok f xs]
    rfl

/-! ### Theorems: hash-index buckets -/

theorem find?_pred {α : Type _} (p : α → Bool) :
    ∀ (l : List α) (a : α), l.find? p = some a → p a = true
  | [], _, h => by simp [List.find?] at h
  | x :: xs, a, h => by
    unfold List.find? at h
    cases hx : p x with
    | true =>
      rw [hx] at h
      injection h with h
      rw [← h]
      exact hx
    | false =>
      rw [hx] at h
      exact find?_pred p xs a h

theorem find_bucket_map (m : List (String × List Nat)) (key k : String) (id : Nat) :
    (m.map (fun p => if p.1 == key then (p.1, p.2 ++ [id]) else p)).find?
        (fun p => p.1 == k) =
      (m.find? (fun p => p.1 == k)).map
        (fun p => if p.1 == key then (p.1, p.2 ++ [id]) else p) := by
  induction m with
  | nil => rfl
  | cons q rest ih =>
    have htrans : ((if q.1 == key then (q.1, q.2 ++ [id]) else q) :
        String × List Nat).1 = q.1 := by
      split <;> rfl
    cases hq : (q.1 == k) with
    | true =>
      have h1 : ((if q.1 == key then (q.1, q.2 ++ [id]) else q) :
            String × List Nat) ::
            rest.map (fun p => if p.1 == key then (p.1, p.2 ++ [id]) else p) =
          (q :: rest).map (fun p => if p.1 == key then (p.1, p.2 ++ [id]) else p) := rfl
      rw [← h1]
      unfold List.find?
      rw [htrans, hq]
      rfl
    | false =>
      have h1 : ((if q.1 == key then (q.1, q.2 ++ [id]) else q) :
            String × List Nat) ::
            rest.map (fun p => if p.1 == key then (p.1, p.2 ++ [id]) else p) =
          (q :: rest).map (fun p => if p.1 == key then (p.1, p.2 ++ [id]) else p) := rfl
      rw [← h1]
      unfold List.find?
      rw [htrans, hq]
      exact ih

theorem find?_no_match (m : List (String × List Nat)) (k : String)
    (h : ∀ p ∈ m, ¬ (p : String × List Nat).1 = k) :
    m.find? (fun p => p.1 == k) = none := by
  induction m with
  | nil => rfl
  | cons q rest ih =>
    unfold List.find?
    have hq : (q.1 == k) = false := by
      simp only [beq_eq_false_iff_ne, ne_eq]
      exact h q (List.mem_cons_self q rest)
    rw [hq]
    exact ih (fun p hp => h p (List.mem_cons_of_mem q hp))

theorem bucket_add (idx : HashIndex) (id : Nat) (u : Value) (k : String) :
    (idx.add id u).bucket k =
      if u.get_key = k then idx.bucket k ++ [id] else idx.bucket k := by
  unfold HashIndex.add HashIndex.bucket
  by_cases hany : idx.map.any (fun p => p.1 == u.get_key) = true
  · rw [if_pos hany]
    simp only []
    rw [find_bucket_map]
    cases hk : idx.map.find? (fun p => p.1 == k) with
    | none =>
      by_cases hek : u.get_key = k
      · exfalso
        rcases List.any_eq_true.mp hany with ⟨p, hp, hpk⟩
        have hcontra := List.find?_eq_none.mp hk p hp
        rw [hek] at hpk
        exact hcontra hpk
      · simp [hek]
    | some p =>
      have hpk0 := find?_pred (fun q : String × List Nat => q.1 == k) idx.map p hk
      have hpk : p.1 = k := by
        simpa using hpk0
      by_cases hek : u.get_key = k
      · subst hek
        have hcond : (p.1 == u.get_key) = true := by
          simp [hpk]
        simp only [Option.map_some, hcond, if_true]
        simp [hpk]
      · have hne : ¬ p.1 = u.get_key := by
          rw [hpk]
          exact fun he => hek he.symm
        simp [hne, hek]
  · rw [if_neg hany]
    simp only []
    rw [List.find?_append]
    have hnokey : ∀ p ∈ idx.map, ¬ (p : String × List Nat).1 = u.get_key := by
      intro p hp hpk
      exact hany (List.any_eq_true.mpr ⟨p, hp, by simp [hpk]⟩)
    by_cases hek : u.get_key = k
    · subst hek
      rw [find?_no_match idx.map u.get_key hnokey]
      have hsingle : List.find? (fun p : String × List Nat => p.1 == u.get_key)
          [(u.get_key, [id])] = some (u.get_key, [id]) := by
        unfold List.find?
        simp
      simp [Option.orElse, hsingle]
    · have hsingle : List.find? (fun p : String × List Nat => p.1 == k)
          [(u.get_key, [id])] = none := by
        unfold List.find?
        have : (u.get_key == k) = false := by
          simp only [beq_eq_false_iff_ne, ne_eq]
          exact hek
        rw [this]
        rfl
      cases hk : idx.map.find? (fun p => p.1 == k) with
      | none => simp [Option.orElse, hsingle, hek]
      | some p => simp [Option.orElse, hek]

theorem bucket_build_no_match :
    ∀ (adds : List (Nat × Value)) (idx : HashIndex) (k : String),
    (∀ p ∈ adds, (p : Nat × Value).2.get_key ≠ k) →
    ((adds.foldl (fun i p => i.add p.1 p.2) idx).bucket k = idx.bucket k)
  | [], _, _, _ => rfl
  | p :: rest, idx, k, h => by
    rw [List.foldl_cons]
    rw [bucket_build_no_match rest (idx.add p.1 p.2) k
      (fun q hq => h q (List.mem_cons_of_mem p hq))]
    rw [bucket_add]
    rw [if_neg (h p (List.mem_cons_self p rest))]

/-- C9: `HashIndex::lookup` is total — for any index built by a sequence of
`add` calls and any probe value it returns `Ok`, and when no added value
canonicalizes to the probe's key it returns the empty row-id list rather
than an error. -/
theorem hash_lookup_total (adds : List (Nat × Value)) (v : Value) :
    (∃ ids, (build_hash_index adds).lookup v = .ok ids) ∧
    ((∀ p ∈ adds, (p : Nat × Value).2.get_key ≠ v.get_key) →
      (build_hash_index adds).lookup v = .ok []) := by
  constructor
  · exact ⟨_, rfl⟩
  · intro h
    unfold HashIndex.lookup
    rw [build_hash_index, bucket_build_no_match adds HashIndex.new v.get_key h]
    rfl

/-- C9 witness: a concrete index holding keys for rows 0 and 1 looked up
with a value never added. -/
theorem hash_lookup_total_witness :
    (build_hash_index [(0, .int 7), (1, .string "x")]).lookup (.int 8) = .ok [] := by
  exact (hash_lookup_total [(0, .int 7), (1, .string "x")] (.int 8)).2 (by decide)

/-! ### Theorems: aggregation -/

/-- C4: an `Aggregate` physical operator over an empty child input returns
zero output rows (never a single row of nulls), for grouped and ungrouped
aggregation alike — the executor returns `Ok(vec![])` before touching the
group or aggregate expressions. -/
theorem aggregate_empty_input (group_expr aggr_expr : List Expr) (schema : SchemaRef) :
    aggregate_exec group_expr aggr_expr schema [] = .ok [] := rfl

/-- C3: executing `Scan(sales) → Aggregate(group=[region], aggr=[Avg(amount)])`
over the four scenario rows produces exactly two rows, one valued
`("N", Float 125.0)` and one valued `("S", Float 225.0)` (the model's
association list yields them in group-creation order; the Rust `HashMap`
iteration may emit them in either order, which the claim allows). -/
theorem grouped_avg_scenario :
    (seq_scan_exec sales_ds >>=
      aggregate_exec [.column "region"] [.aggregate .avg (.column "amount")]
        sales_out_schema) =
      .ok [⟨sales_out_schema, [.string "N", .float (.fin 125)]⟩,
           ⟨sales_out_schema, [.string "S", .float (.fin 225)]⟩] := by
  with_unfolding_all rfl

/-! ### Theorems: aggregate output schema -/

theorem group_field_step_foldl :
    ∀ (l : List Expr) (init : List Field),
    l.foldl group_field_step init =
      init ++ l.filterMap (fun e =>
        match e with
        | .column name => some (Field.new name .string)
        | _ => none)
  | [], init => by simp
  | e :: rest, init => by
    rw [List.foldl_cons, group_field_step_foldl rest _]
    cases e <;> simp [group_field_step]

theorem aggr_field_step_foldl (s : Schema) :
    ∀ (l : List Expr) (init : List Field),
    l.foldl (aggr_field_step s) init =
      init ++ l.filterMap (fun e =>
        match e with
        | .aggregate func inner =>
          let typ : ValueType :=
            match func with
            | .sum => infer_expr_type_full inner s
            | .min => infer_expr_type_full inner s
            | .max => infer_expr_type_full inner s
            | .avg => .float
            | .count => .int
          some (Field.new func.debugName typ)
        | _ => none)
  | [], init => by simp
  | e :: rest, init => by
    rw [List.foldl_cons, aggr_field_step_foldl s rest _]
    cases e <;> simp [aggr_field_step]

/-- C2 counterexample: for `Aggregate(group=[amount], aggr=[Avg(amount)])`
over `sales(region: String, amount: Int)`, the computed output schema types
the group-key field `amount` with the placeholder `String` (not the input
type `Int`) and names the aggregate field `"Avg"` (the `Debug` rendering of
the function), not `"AVG(amount)"` — refuting the claimed naming and group
typing at this concrete plan. -/
theorem aggregate_schema_counterexample :
    sales_plan_by_amount.schema =
      ⟨[⟨"amount", .string, false, false⟩, ⟨"Avg", .float, false, false⟩]⟩ ∧
    sales_plan_by_amount.schema.fields.map Field.name ≠ ["amount", "AVG(amount)"] ∧
    sales_plan_by_amount.schema.fields.map Field.value_type ≠
      [.int, .float] := by
  refine ⟨by with_unfolding_all rfl, ?_, ?_⟩
  · with_unfolding_all decide
  · with_unfolding_all decide

/-- C2 amended: for every `Aggregate` node the computed output schema is
the group-key fields first — one per `Column` group expression, carrying
the placeholder type `String` — followed by one field per `AggregateExpr`
aggregate expression named by the `Debug` rendering of its function
(`"Avg"`, `"Count"`, …), with types Count→Int, Avg→Float and Sum/Min/Max
inferred from the input schema by `infer_expr_type_full`. -/
theorem aggregate_schema_amended (input : LogicalPlan) (group_expr aggr_expr : List Expr) :
    (LogicalPlan.aggregate input group_expr aggr_expr).schema =
      aggregate_schema_spec input.schema group_expr aggr_expr := by
  show Schema.mk _ = _
  unfold aggregate_schema_spec
  rw [Schema.mk.injEq]
  rw [aggr_field_step_foldl, group_field_step_foldl]
  simp

/-! ### Theorems: index scan versus sequential scan plus filter -/

theorem hash_populate_bucket (c k : String) :
    ∀ (rows : List Tuple) (i : Nat) (h : HashIndex),
    (hash_populate c i rows h).bucket k = h.bucket k ++ matching_ids c k i rows
  | [], i, h => by simp [hash_populate, matching_ids]
  | row :: rest, i, h => by
    unfold hash_populate matching_ids
    cases hg : row.get c with
    | some u =>
      rw [hash_populate_bucket c k rest (i + 1) (h.add i u)]
      rw [bucket_add]
      simp only []
      by_cases hk : u.get_key = k
      · rw [if_pos hk, if_pos hk]
        simp
      · rw [if_neg hk, if_neg hk]
        simp
    | none =>
      rw [hash_populate_bucket c k rest (i + 1) h]
      simp

theorem mem_matching_ids (c k : String) :
    ∀ (rows : List Tuple) (i j : Nat),
    j ∈ matching_ids c k i rows ↔
      ∃ m row, rows.get? m = some row ∧ j = i + m ∧
        ∃ u, row.get c = some u ∧ u.get_key = k
  | [], i, j => by simp [matching_ids]
  | row :: rest, i, j => by
    unfold matching_ids
    constructor
    · intro hj
      rcases List.mem_append.mp hj with hh | ht
      · cases hg : row.get c with
        | some u =>
          rw [hg] at hh
          simp only [] at hh
          by_cases hk : u.get_key = k
          · rw [if_pos hk] at hh
            have hji := List.mem_singleton.mp hh
            exact ⟨0, row, by simp, by omega, u, hg, hk⟩
          · rw [if_neg hk] at hh
            exact absurd hh (List.not_mem_nil j)
        | none =>
          rw [hg] at hh
          exact absurd hh (List.not_mem_nil j)
      · rcases (mem_matching_ids c k rest (i + 1) j).mp ht with
          ⟨m, row', hget, hj', u, hu, hk⟩
        exact ⟨m + 1, row', by simpa using hget, by omega, u, hu, hk⟩
    · rintro ⟨m, row', hget, rfl, u, hu, hk⟩
      cases m with
      | zero =>
        have hrow : row = row' := by
          simpa using hget
        subst hrow
        apply List.mem_append.mpr
        left
        rw [hu]
        simp only []
        rw [if_pos hk]
        simp
      | succ m' =>
        apply List.mem_append.mpr
        right
        apply (mem_matching_ids c k rest (i + 1) _).mpr
        exact ⟨m', row', by simpa using hget, by omega, u, hu, hk⟩

theorem evaluate_lazy_no_lazy (ds : Dataset) (row : Tuple)
    (hnolazy : ∀ f ∈ ds.schema.val.fields, f.is_lazy = false)
    (hvalid : ds.schema.val.validate row.values = .ok ()) :
    evaluate_lazy_columns_in_row ds row = .ok ⟨ds.schema, row.values⟩ := by
  unfold evaluate_lazy_columns_in_row
  have hvals : ds.eval_lazy_values row = row.values := by
    unfold Dataset.eval_lazy_values
    have haux : ∀ (l : List (Nat × Field)) (acc : List Value),
        (∀ p ∈ l, (p : Nat × Field).2.is_lazy = false) →
        l.foldl (Dataset.lazy_step ds row) acc = acc := by
      intro l
      induction l with
      | nil => intro acc _; rfl
      | cons p rest ih =>
        intro acc hl
        rw [List.foldl_cons]
        rw [show Dataset.lazy_step ds row acc p = acc from by
          unfold Dataset.lazy_step
          rw [if_neg]
          simp [hl p (List.mem_cons_self p rest)]]
        exact ih acc (fun q hq => hl q (List.mem_cons_of_mem p hq))
    apply haux
    intro p hp
    have hp2 : ds.schema.val.fields.get? p.1 = some p.2 :=
      List.mem_enum_iff_get?.mp hp
    exact hnolazy p.2 (List.get?_mem hp2)
  rw [hvals]
  unfold Tuple.new
  rw [hvalid]

theorem ordering_obeq_iff (a b : Option Ordering) : (a == b) = true ↔ a = b := by
  rcases a with _ | oa <;> rcases b with _ | ob
  · decide
  · cases ob <;> decide
  · cases oa <;> decide
  · cases oa <;> cases ob <;> decide

theorem mapM_congr_ok {α β : Type _} (f : α → Except String β) (g : α → β) :
    ∀ l : List α, (∀ a ∈ l, f a = .ok (g a)) → l.mapM f = .ok (l.map g)
  | [], _ => rfl
  | x :: xs, h => by
    rw [List.mapM_cons, h x (List.mem_cons_self x xs), ok_bind,
      mapM_congr_ok f g xs (fun a ha => h a (List.mem_cons_of_mem x ha)), ok_bind]
    rfl

/-- C1 counterexample: a nullable String column holding `Null`, hash-indexed,
probed with the literal `String "NULL"`.  Both canonicalize to the key
`"NULL"`, so the planner picks the index scan and `IndexScan` returns the
`Null` row, while `SeqScan`+`Filter` compares `Null < String` (not equal)
and returns nothing: the two plans produce different row sets. -/
theorem index_scan_filter_counterexample :
    ((Dataset.with_rows 3 null_schema [null_row]) >>= fun base =>
      base.create_index "c" (.hash HashIndex.new)) = .ok null_ds ∧
    try_optimize_filter null_ds
      (.binary (.column "c") "=" (.literal (.string "NULL"))) =
      some ("c", .string "NULL") ∧
    index_scan_exec null_ds "c" (.string "NULL") = .ok [null_row] ∧
    filter_exec (.binary (.column "c") "=" (.literal (.string "NULL")))
      (seq_scan_exec null_ds) = .ok [] ∧
    null_row ∈ [null_row] ∧ null_row ∉ ([] : List Tuple) := by
  refine ⟨by with_unfolding_all rfl, by with_unfolding_all rfl,
    by with_unfolding_all rfl, by with_unfolding_all rfl,
    List.mem_singleton.mpr rfl, List.not_mem_nil null_row⟩

/-- C1 amended: for a dataset with no lazy columns, whose rows share the
dataset schema and validate against it, whose hash index on column `c` was
built from its rows, and for a literal `v` whose canonical key agrees with
the predicate comparison on every stored value of column `c`
(`key_faithful` — in particular whenever `v` and the stored values are all
of one same non-float scalar variant), the planner rewrites `Filter(c = v)`
over the scan into an `IndexScan`, both physical plans execute without
error, and they return the same set of rows.  The no-lazy-columns
restriction is necessary, not incidental: a hash index on a lazy column
(which `create_index` permits, checking only that the field exists) is
populated from the stored `Null` placeholders, while the sequential scan
evaluates the lazy expression before the filter compares, so the two plans
diverge there even when the canonical keys are consistent. -/
theorem index_scan_filter_equiv (ds : Dataset) (c : String) (v : Value)
    (hidx : ds.get_index c = some (.hash (hash_populate c 0 ds.rows .new)))
    (hschema : ∀ row ∈ ds.rows, row.schema = ds.schema)
    (hvalid : ∀ row ∈ ds.rows, ds.schema.val.validate row.values = .ok ())
    (hnolazy : ∀ f ∈ ds.schema.val.fields, f.is_lazy = false)
    (hfaith : key_faithful c v ds.rows = true) :
    try_optimize_filter ds (.binary (.column c) "=" (.literal v)) = some (c, v) ∧
    ∃ l₁ l₂,
      index_scan_exec ds c v = .ok l₁ ∧
      filter_exec (.binary (.column c) "=" (.literal v)) (seq_scan_exec ds) = .ok l₂ ∧
      (∀ t, t ∈ l₁ ↔ t ∈ l₂) := by
  have hfaith' : ∀ row ∈ ds.rows, ∀ u, row.get c = some u →
      (u.get_key = v.get_key ↔ u.compare v = some .eq) := by
    intro row hrow u hu
    have hall := List.all_eq_true.mp hfaith row hrow
    simp only [hu, Option.map_some, Option.getD_some] at hall
    have h2 : (u.get_key == v.get_key) = (u.compare v == some Ordering.eq) := by
      simpa using hall
    constructor
    · intro hk
      have hb : (u.get_key == v.get_key) = true := by simp [hk]
      rw [h2] at hb
      exact (ordering_obeq_iff _ _).mp hb
    · intro hcmp
      have hb : (u.compare v == some Ordering.eq) = true :=
        (ordering_obeq_iff _ _).mpr hcmp
      rw [← h2] at hb
      simpa using hb
  have hgr : ∀ r ∈ ds.rows, ((⟨ds.schema, r.values⟩ : Tuple).get c = r.get c) := by
    intro r hr
    unfold Tuple.get
    rw [hschema r hr]
  have hpred : ∀ r ∈ ds.rows,
      evaluate_expr (.binary (.column c) "=" (.literal v)) ⟨ds.schema, r.values⟩ =
        match r.get c with
        | some u => u.compare v == some Ordering.eq
        | none => false := by
    intro r hr
    unfold evaluate_expr eval_value
    simp only []
    rw [hgr r hr]
    cases r.get c with
    | none => rfl
    | some u => rfl
  refine ⟨?_, ?_⟩
  · unfold try_optimize_filter
    simp only []
    rw [if_pos trivial]
    rw [hidx]
    rfl
  · have hseq : seq_scan_exec ds =
        .ok (ds.rows.map (fun r => (⟨ds.schema, r.values⟩ : Tuple))) := by
      unfold seq_scan_exec
      exact mapM_congr_ok _ _ ds.rows
        (fun r hr => evaluate_lazy_no_lazy ds r hnolazy (hvalid r hr))
    have hbucket : (hash_populate c 0 ds.rows .new).bucket v.get_key =
        matching_ids c v.get_key 0 ds.rows := by
      rw [hash_populate_bucket c v.get_key ds.rows 0 .new]
      rfl
    have hsub : ∀ r ∈ ds.get_rows_by_ids (matching_ids c v.get_key 0 ds.rows),
        r ∈ ds.rows := by
      intro r hr
      rcases List.mem_filterMap.mp hr with ⟨j, _, hj⟩
      exact List.get?_mem hj
    have hexec : index_scan_exec ds c v =
        .ok ((ds.get_rows_by_ids (matching_ids c v.get_key 0 ds.rows)).map
          (fun r => (⟨ds.schema, r.values⟩ : Tuple))) := by
      unfold index_scan_exec
      rw [hidx]
      simp only []
      rw [show (IndexBox.hash (hash_populate c 0 ds.rows .new)).lookup v =
        .ok ((hash_populate c 0 ds.rows .new).bucket v.get_key) from rfl]
      rw [ok_bind, hbucket]
      exact mapM_congr_ok _ _ _
        (fun r hr => evaluate_lazy_no_lazy ds r hnolazy (hvalid r (hsub r hr)))
    refine ⟨_, _, hexec, by rw [hseq]; rfl, ?_⟩
    intro t
    constructor
    · intro ht
      rcases List.mem_map.mp ht with ⟨r, hr, rfl⟩
      rcases List.mem_filterMap.mp hr with ⟨j, hj, hjr⟩
      rcases (mem_matching_ids c v.get_key ds.rows 0 j).mp hj with
        ⟨m, row, hm, hjm, u, hu, hk⟩
      have hjm' : j = m := by omega
      subst hjm'
      have hrrow : row = r := by
        rw [hjr] at hm
        exact (Option.some.inj hm).symm
      subst hrrow
      have hrmem : row ∈ ds.rows := List.get?_mem hm
      apply List.mem_filter.mpr
      refine ⟨List.mem_map.mpr ⟨row, hrmem, rfl⟩, ?_⟩
      rw [hpred row hrmem, hu]
      exact (ordering_obeq_iff _ _).mpr ((hfaith' row hrmem u hu).mp hk)
    · intro ht
      rcases List.mem_filter.mp ht with ⟨hmem, hp⟩
      rcases List.mem_map.mp hmem with ⟨r, hr, rfl⟩
      rw [hpred r hr] at hp
      cases hu : r.get c with
      | none =>
        rw [hu] at hp
        exact absurd hp (by simp)
      | some u =>
        rw [hu] at hp
        have hcmp : u.compare v = some .eq := (ordering_obeq_iff _ _).mp hp
        have hk : u.get_key = v.get_key := (hfaith' r hr u hu).mpr hcmp
        rcases List.mem_iff_get?.mp hr with ⟨m, hm⟩
        apply List.mem_map.mpr
        refine ⟨r, ?_, rfl⟩
        apply List.mem_filterMap.mpr
        refine ⟨m, ?_, hm⟩
        apply (mem_matching_ids c v.get_key ds.rows 0 m).mpr
        exact ⟨m, r, hm, by omega, u, hu, hk⟩

/-- C1 witness: the amended equivalence applied to a concrete Int-keyed
dataset with duplicate key values. -/
theorem index_scan_filter_equiv_witness :
    try_optimize_filter int_ds (.binary (.column "c") "=" (.literal (.int 1))) =
      some ("c", .int 1) ∧
    ∃ l₁ l₂,
      index_scan_exec int_ds "c" (.int 1) = .ok l₁ ∧
      filter_exec (.binary (.column "c") "=" (.literal (.int 1)))
        (seq_scan_exec int_ds) = .ok l₂ ∧
      (∀ t, t ∈ l₁ ↔ t ∈ l₂) :=
  index_scan_filter_equiv int_ds "c" (.int 1) rfl (by decide)
    (by intro row hr
        rcases List.mem_cons.mp hr with h | hr
        · rw [h]; with_unfolding_all rfl
        rcases List.mem_cons.mp hr with h | hr
        · rw [h]; with_unfolding_all rfl
        rcases List.mem_cons.mp hr with h | hr
        · rw [h]; with_unfolding_all rfl
        · exact absurd hr (List.not_mem_nil row))
    (by decide) (by with_unfolding_all rfl)

/-! ### Theorems: dataset schema-identity invariant -/

/-- C7: evaluating the code on the failing input — create `t(a: Int)`,
insert `(1)`, add the lazy column `c = a + a`, materialize — shows the
invariant broken: `metadata.row_count` still equals the number of rows, but
the surviving row's schema reference is the `Arc` allocated by
`add_computed_column` (identity 1) while the dataset's schema is the fresh
`Arc` allocated by `materialize_lazy_columns` (identity 2), so pointer
identity fails (the row's stale schema even still carries
`is_lazy = true`). -/
theorem materialize_breaks_schema_identity :
    c7_pipeline = .ok c7_result ∧
    c7_result.row_count = c7_result.rows.length ∧
    c7_result.schema.ptr = 2 ∧
    (∀ row ∈ c7_result.rows, row.schema.ptr = 1) ∧
    ¬ (∀ row ∈ c7_result.rows, row.schema.ptr = c7_result.schema.ptr) := by
  refine ⟨by with_unfolding_all rfl, rfl, rfl, by decide, ?_⟩
  intro h
  have h1 := h ⟨⟨1, ⟨[Field.new "a" .int, ⟨"c", .int, true, true⟩]⟩⟩,
    [.int 1, .int 2]⟩ (by decide)
  simp [c7_result] at h1

/-! ### Theorems: Value::compare ordering -/

/-- C8 counterexample: two `Float` values of the same scalar variant on
which `Value::compare` returns `None` rather than `Some` — `partial_cmp` on
NaN — refuting totality on the Float variant. -/
theorem value_compare_nan_counterexample :
    Value.compare (.float .nan) (.float .nan) = none ∧
    Value.compare (.float .nan) (.float (.fin 0)) = none :=
  ⟨rfl, rfl⟩

/-- C8 amended: `Value::compare` is a total order on same-variant `Int`,
`String` and `Bool` pairs (and on NaN-free `Float` pairs): it returns
`Some`, `Some eq` exactly on equal values, swaps with its arguments, and is
transitive on strict comparisons; on the `Float` variant it returns `None`
exactly when an operand is NaN. -/
theorem value_compare_amended :
    (∀ v w : Value, same_scalar_variant v w → ¬ has_nan v → ¬ has_nan w →
      (∃ o, Value.compare v w = some o) ∧
      (Value.compare v w = some .eq ↔ v = w) ∧
      (∀ o, Value.compare v w = some o → Value.compare w v = some o.swap)) ∧
    (∀ v w u : Value, same_scalar_variant v w → same_scalar_variant w u →
      ¬ has_nan v → ¬ has_nan w → ¬ has_nan u →
      Value.compare v w = some .lt → Value.compare w u = some .lt →
      Value.compare v u = some .lt) ∧
    (∀ a b : Fl, Value.compare (.float a) (.float b) = none ↔
      a = .nan ∨ b = .nan) := by
  refine ⟨?_, ?_, ?_⟩
  · intro v w hsv hv hw
    match v, w with
    | .int a, .int b =>
      refine ⟨⟨_, rfl⟩, ?_, ?_⟩
      · show some (cmp3 a b) = some .eq ↔ _
        simp [cmp3_eq_eq]
      · intro o ho
        injection ho with ho
        show some (cmp3 b a) = _
        rw [cmp3_swap, ho]
    | .string a, .string b =>
      refine ⟨⟨_, rfl⟩, ?_, ?_⟩
      · show some (cmp3 a b) = some .eq ↔ _
        simp [cmp3_eq_eq]
      · intro o ho
        injection ho with ho
        show some (cmp3 b a) = _
        rw [cmp3_swap, ho]
    | .bool a, .bool b =>
      refine ⟨⟨_, rfl⟩, ?_, ?_⟩
      · show some (cmp3 a b) = some .eq ↔ _
        simp [cmp3_eq_eq]
      · intro o ho
        injection ho with ho
        show some (cmp3 b a) = _
        rw [cmp3_swap, ho]
    | .float (.fin a), .float (.fin b) =>
      refine ⟨⟨_, rfl⟩, ?_, ?_⟩
      · show some (cmp3 a b) = some .eq ↔ _
        simp [cmp3_eq_eq]
      · intro o ho
        injection ho with ho
        show some (cmp3 b a) = _
        rw [cmp3_swap, ho]
    | .float .nan, .float _ => exact absurd trivial hv
    | .float (.fin _), .float .nan => exact absurd trivial hw
  · intro v w u hsv hsw hv hw hu hvw hwu
    match v, w, u with
    | .int a, .int b, .int c =>
      injection hvw with hvw
      injection hwu with hwu
      show some (cmp3 a c) = some .lt
      rw [cmp3_eq_lt.mpr (lt_trans (cmp3_eq_lt.mp hvw) (cmp3_eq_lt.mp hwu))]
    | .string a, .string b, .string c =>
      injection hvw with hvw
      injection hwu with hwu
      show some (cmp3 a c) = some .lt
      rw [cmp3_eq_lt.mpr (lt_trans (cmp3_eq_lt.mp hvw) (cmp3_eq_lt.mp hwu))]
    | .bool a, .bool b, .bool c =>
      injection hvw with hvw
      injection hwu with hwu
      show some (cmp3 a c) = some .lt
      rw [cmp3_eq_lt.mpr (lt_trans (cmp3_eq_lt.mp hvw) (cmp3_eq_lt.mp hwu))]
    | .float (.fin a), .float (.fin b), .float (.fin c) =>
      injection hvw with hvw
      injection hwu with hwu
      show some (cmp3 a c) = some .lt
      rw [cmp3_eq_lt.mpr (lt_trans (cmp3_eq_lt.mp hvw) (cmp3_eq_lt.mp hwu))]
    | .float .nan, .float _, .float _ => exact absurd trivial hv
    | .float (.fin _), .float .nan, .float _ => exact absurd trivial hw
    | .float (.fin _), .float (.fin _), .float .nan => exact absurd trivial hu
  · intro a b
    match a, b with
    | .nan, .nan => simp [Value.compare, Fl.pcmp]
    | .nan, .fin q => simp [Value.compare, Fl.pcmp]
    | .fin q, .nan => simp [Value.compare, Fl.pcmp]
    | .fin q, .fin r => simp [Value.compare, Fl.pcmp]

/-- C8 witness: the amended theorem applied at concrete Int values. -/
theorem value_compare_amended_witness :
    (∃ o, Value.compare (.int 3) (.int 5) = some o) ∧
    Value.compare (.int 3) (.int 7) = some .lt :=
  ⟨(value_compare_amended.1 (.int 3) (.int 5) trivial (fun h => h) (fun h => h)).1,
    value_compare_amended.2.1 (.int 3) (.int 5) (.int 7) trivial trivial
      (fun h => h) (fun h => h) (fun h => h)
      (by with_unfolding_all rfl) (by with_unfolding_all rfl)⟩

/-! ### Theorems: vector index -/

theorem vector_add_mem :
    ∀ (adds : List (Nat × Value)) (vi0 vi : VectorIndex),
    adds.foldlM (fun idx p => idx.add p.1 p.2) vi0 = .ok vi →
    ∀ rt ∈ vi.vectors,
      rt ∈ vi0.vectors ∨ ∃ d, ((rt : Nat × Tensor).1, Value.vector d) ∈ adds
  | [], vi0, vi, h, rt, hrt => by
    rw [List.foldlM_nil] at h
    injection h with h
    subst h
    exact Or.inl hrt
  | p :: rest, vi0, vi, h, rt, hrt => by
    rw [List.foldlM_cons] at h
    cases hv : p.2 with
    | vector d =>
      rw [hv] at h
      have htn : Tensor.new 0 [d.length] d = .ok ⟨0, [d.length], d⟩ := by
        unfold Tensor.new
        rw [if_neg (by simp)]
      have hadd : vi0.add p.1 (.vector d) =
          .ok ⟨vi0.vectors ++ [(p.1, ⟨0, [d.length], d⟩)]⟩ := by
        show (Tensor.new 0 [d.length] d >>= fun tensor =>
          Except.ok (VectorIndex.mk (vi0.vectors ++ [(p.1, tensor)]))) =
          Except.ok (VectorIndex.mk
            (vi0.vectors ++ [(p.1, Tensor.mk 0 [d.length] d)]))
        rw [htn, ok_bind]
      rw [hadd, ok_bind] at h
      rcases vector_add_mem rest _ vi h rt hrt with hmem | ⟨d', hd'⟩
      · rcases List.mem_append.mp hmem with h0 | h1
        · exact Or.inl h0
        · refine Or.inr ⟨d, ?_⟩
          rw [List.mem_singleton.mp h1]
          rw [show ((p.1, Value.vector d) : Nat × Value) = p by rw [← hv]]
          exact List.mem_cons_self p rest
      · exact Or.inr ⟨d', List.mem_cons_of_mem p hd'⟩
    | null =>
      rw [hv] at h
      rw [show vi0.add p.1 .null = .ok vi0 from rfl, ok_bind] at h
      rcases vector_add_mem rest vi0 vi h rt hrt with h0 | ⟨d', hd'⟩
      · exact Or.inl h0
      · exact Or.inr ⟨d', List.mem_cons_of_mem p hd'⟩
    | int i =>
      rw [hv] at h
      exact Except.noConfusion h
    | float f =>
      rw [hv] at h
      exact Except.noConfusion h
    | string s =>
      rw [hv] at h
      exact Except.noConfusion h
    | bool b =>
      rw [hv] at h
      exact Except.noConfusion h
    | matrix mtx =>
      rw [hv] at h
      exact Except.noConfusion h

theorem mapM_scores_mem (q : Tensor) :
    ∀ (vecs : List (Nat × Tensor)) (scores : List (Nat × Fl)),
    (vecs.mapM (fun p => do
      let score ← VectorIndex.cosine_similarity q p.2
      pure (p.1, score))) = .ok scores →
    ∀ rs ∈ scores, ∃ p ∈ vecs, (p : Nat × Tensor).1 = (rs : Nat × Fl).1
  | [], scores, h, rs, hrs => by
    rw [List.mapM_nil] at h
    injection h with h
    subst h
    exact absurd hrs (List.not_mem_nil rs)
  | p :: rest, scores, h, rs, hrs => by
    rw [List.mapM_cons] at h
    cases hc : VectorIndex.cosine_similarity q p.2 with
    | error e =>
      rw [hc] at h
      exact Except.noConfusion h
    | ok score =>
      rw [hc] at h
      simp only [ok_bind, pure_bind_ex] at h
      cases hrest : rest.mapM (fun p => do
          let score ← VectorIndex.cosine_similarity q p.2
          pure (p.1, score)) with
      | error e =>
        rw [hrest] at h
        exact Except.noConfusion h
      | ok tail =>
        rw [hrest] at h
        simp only [ok_bind] at h
        rw [except_pure] at h
        injection h with h
        subst h
        rcases List.mem_cons.mp hrs with hhead | htail
        · exact ⟨p, List.mem_cons_self p rest, by rw [hhead]⟩
        · rcases mapM_scores_mem q rest tail hrest rs htail with ⟨p', hp', hp1⟩
          exact ⟨p', List.mem_cons_of_mem p hp', hp1⟩

/-- C10: `VectorIndex::add` accepts `Null` without storing any entry and
rejects every other non-`Vector` variant with an error; consequently a row
id whose every `add` carried `Null` never appears in `search` results. -/
theorem vector_index_null_semantics :
    (∀ (vi : VectorIndex) (rid : Nat), vi.add rid .null = .ok vi) ∧
    (∀ (vi : VectorIndex) (rid : Nat) (i : Int),
      vi.add rid (.int i) = .error "Cannot index Int as Vector") ∧
    (∀ (vi : VectorIndex) (rid : Nat) (f : Fl),
      vi.add rid (.float f) = .error "Cannot index Float as Vector") ∧
    (∀ (vi : VectorIndex) (rid : Nat) (s : String),
      vi.add rid (.string s) = .error "Cannot index String as Vector") ∧
    (∀ (vi : VectorIndex) (rid : Nat) (b : Bool),
      vi.add rid (.bool b) = .error "Cannot index Boolean as Vector") ∧
    (∀ (vi : VectorIndex) (rid : Nat) (mtx : List (List Fl)),
      vi.add rid (.matrix mtx) = .error "Cannot index Matrix as Vector") ∧
    (∀ (adds : List (Nat × Value)) (vi : VectorIndex) (rid : Nat)
      (q : Tensor) (k : Nat) (res : List (Nat × Fl)),
      build_vector_index adds = .ok vi →
      (∀ p ∈ adds, (p : Nat × Value).1 = rid → (p : Nat × Value).2 = .null) →
      vi.search q k = .ok res →
      ∀ s, (rid, s) ∉ res) := by
  refine ⟨fun _ _ => rfl, fun _ _ _ => rfl, fun _ _ _ => rfl, fun _ _ _ => rfl,
    fun _ _ _ => rfl, fun _ _ _ => rfl, ?_⟩
  intro adds vi rid q k res hbuild hnull hsearch s hmem
  unfold VectorIndex.search at hsearch
  cases hsc : vi.vectors.mapM (fun p => do
      let score ← VectorIndex.cosine_similarity q p.2
      pure (p.1, score)) with
  | error e =>
    rw [hsc] at hsearch
    exact Except.noConfusion hsearch
  | ok scores =>
    rw [hsc] at hsearch
    simp only [ok_bind] at hsearch
    injection hsearch with hsearch
    subst hsearch
    have hmem2 : (rid, s) ∈ scores.insertionSort VectorIndex.score_le :=
      List.take_subset k _ hmem
    have hmem3 : (rid, s) ∈ scores :=
      (List.perm_insertionSort VectorIndex.score_le scores).mem_iff.mp hmem2
    rcases mapM_scores_mem q vi.vectors scores hsc (rid, s) hmem3 with ⟨p, hp, hp1⟩
    rcases vector_add_mem adds VectorIndex.new vi hbuild p hp with h0 | ⟨d, hd⟩
    · exact absurd h0 (List.not_mem_nil p)
    · have := hnull (p.1, Value.vector d) hd (by rw [hp1])
      exact Value.noConfusion this

/-- C10 witness: build an index from a `Null` add for row 0 and a vector
add for row 1, search with a zero query; row 0 appears in no result. -/
theorem vector_index_null_semantics_witness :
    build_vector_index [(0, .null), (1, .vector [.fin 1])] =
      .ok ⟨[(1, ⟨0, [1], [.fin 1]⟩)]⟩ ∧
    VectorIndex.search ⟨[(1, ⟨0, [1], [.fin 1]⟩)]⟩ ⟨9, [1], [.fin 0]⟩ 2 =
      .ok [(1, .fin 0)] ∧
    ∀ s, ((0 : Nat), s) ∉ [((1 : Nat), Fl.fin 0)] := by
  refine ⟨by with_unfolding_all rfl, by with_unfolding_all rfl, ?_⟩
  intro s
  exact vector_index_null_semantics.2.2.2.2.2.2
    [(0, .null), (1, .vector [.fin 1])] ⟨[(1, ⟨0, [1], [.fin 1]⟩)]⟩ 0
    ⟨9, [1], [.fin 0]⟩ 2 [(1, .fin 0)]
    (by with_unfolding_all rfl) (by decide) (by with_unfolding_all rfl) s

/-! ### Theorems: relaxed element-wise addition -/

/-- C5: relaxed element-wise addition on two (well-formed) rank-1 tensors
yields a rank-1 tensor of length `max(len_a, len_b)` whose element `i` is
`a[i] + b[i]` with the shorter operand read as the neutral element `0.0`
past its end; a rank-0 operand broadcasts over the other operand (the left
one taking precedence when both are rank 0, as the Rust match does); and
every other rank combination fails with a shape error. -/
theorem add_relaxed_spec (a b : Tensor) (new_id : Nat) (ha : a.wf) (hb : b.wf) :
    (a.rank = 1 → b.rank = 1 →
      add_relaxed a b new_id = .ok ⟨new_id, [max a.data.length b.data.length],
        (List.range (max a.data.length b.data.length)).map (fun i =>
          (if i < a.data.length then a.data.getD i (.fin 0) else .fin 0).add
          (if i < b.data.length then b.data.getD i (.fin 0) else .fin 0))⟩) ∧
    (a.rank = 0 →
      add_relaxed a b new_id = .ok ⟨new_id, b.shape,
        b.data.map (fun y => (a.data.headD (.fin 0)).add y)⟩) ∧
    (a.rank ≠ 0 → b.rank = 0 →
      add_relaxed a b new_id = .ok ⟨new_id, a.shape,
        a.data.map (fun x => x.add (b.data.headD (.fin 0)))⟩) ∧
    (a.rank ≠ 0 → b.rank ≠ 0 → ¬(a.rank = 1 ∧ b.rank = 1) →
      ∃ e, add_relaxed a b new_id = .error e) := by
  unfold Tensor.wf at ha hb
  refine ⟨?_, ?_, ?_, ?_⟩
  · intro h1 h2
    unfold add_relaxed elementwise_binary_op
    rw [h1, h2]
    simp only [mapM_ok]
    unfold Tensor.new
    rw [ok_bind]
    rw [if_neg (by simp)]
  · intro h0
    unfold add_relaxed elementwise_binary_op
    rw [h0]
    simp only [mapM_ok]
    unfold Tensor.new
    rw [ok_bind]
    rw [if_neg (by simp [hb])]
  · intro ha0 hb0
    unfold add_relaxed elementwise_binary_op
    obtain ⟨n, hn⟩ := Nat.exists_eq_succ_of_ne_zero ha0
    rw [hn, hb0]
    simp only [mapM_ok]
    unfold Tensor.new
    rw [ok_bind]
    rw [if_neg (by simp [ha])]
  · intro ha0 hb0 hnot
    unfold add_relaxed elementwise_binary_op
    obtain ⟨n, hn⟩ := Nat.exists_eq_succ_of_ne_zero ha0
    obtain ⟨m, hm⟩ := Nat.exists_eq_succ_of_ne_zero hb0
    rw [hn, hm]
    match n, m with
    | 0, 0 => exact absurd ⟨by rw [hn], by rw [hm]⟩ hnot
    | 0, m + 1 => exact ⟨_, rfl⟩
    | n + 1, 0 => exact ⟨_, rfl⟩
    | n + 1, m + 1 => exact ⟨_, rfl⟩

/-! ### Theorems: cosine similarity on zero-norm input -/

/-- C6 counterexample: `VectorIndex::cosine_similarity` — the cosine
similarity computed inside `VectorIndex::search` — does NOT fail on a
zero-norm input: for the zero vector `[0.0]` against `[1.0]` it returns
`Ok(0.0)` (source comment: "Handle zero vectors"), never an error. -/
theorem vector_cosine_zero_norm_counterexample :
    VectorIndex.cosine_similarity ⟨0, [1], [.fin 0]⟩ ⟨0, [1], [.fin 1]⟩ =
      .ok (.fin 0) ∧
    ∀ e, VectorIndex.cosine_similarity ⟨0, [1], [.fin 0]⟩ ⟨0, [1], [.fin 1]⟩ ≠
      .error e := by
  refine ⟨by with_unfolding_all rfl, ?_⟩
  intro e h
  rw [show VectorIndex.cosine_similarity ⟨0, [1], [.fin 0]⟩ ⟨0, [1], [.fin 1]⟩ =
    .ok (.fin 0) by with_unfolding_all rfl] at h
  exact Except.noConfusion h

/-- C6 amended: the `cosine_similarity_1d` kernel fails with an error
whenever either input has zero L2 norm (zero sum of squares), but
`VectorIndex::cosine_similarity`, used by `VectorIndex::search`, instead
returns `Ok(0.0)` on zero-norm input of matching shape. -/
theorem cosine_zero_norm_behavior :
    (∀ a b : Tensor,
      (l2_norm_sq a.data = .fin 0 ∨ l2_norm_sq b.data = .fin 0) →
      ∃ e, cosine_similarity_1d a b = .error e) ∧
    (∀ a b : Tensor, a.shape = b.shape → a.data.length = b.data.length →
      (l2_norm_sq a.data = .fin 0 ∨ l2_norm_sq b.data = .fin 0) →
      VectorIndex.cosine_similarity a b = .ok (.fin 0)) := by
  constructor
  · intro a b h
    unfold cosine_similarity_1d
    cases hd : dot_1d a b with
    | error e => exact ⟨e, rfl⟩
    | ok dot =>
      rw [ok_bind]
      unfold l2_norm_1d
      by_cases hra : a.rank ≠ 1
      · rw [if_pos hra]
        exact ⟨_, rfl⟩
      · rw [if_neg hra]
        rw [ok_bind]
        by_cases hrb : b.rank ≠ 1
        · rw [if_pos hrb]
          exact ⟨_, rfl⟩
        · rw [if_neg hrb]
          rw [ok_bind]
          rw [if_pos h]
          exact ⟨_, rfl⟩
  · intro a b hs hl h
    unfold VectorIndex.cosine_similarity
    rw [if_neg (by rw [hs]; exact fun hc => hc rfl)]
    rw [if_neg (by rw [hl]; exact fun hc => hc rfl)]
    simp only []
    rw [if_pos]
    exact h

/-- C6 witness: at the concrete zero-norm pair `[0.0]` and `[1.0]` the
kernel errors while the vector-index cosine returns `Ok(0.0)`. -/
theorem cosine_zero_norm_behavior_witness :
    (∃ e, cosine_similarity_1d ⟨0, [1], [.fin 0]⟩ ⟨1, [1], [.fin 1]⟩ = .error e) ∧
    VectorIndex.cosine_similarity ⟨0, [1], [.fin 0]⟩ ⟨1, [1], [.fin 1]⟩ =
      .ok (.fin 0) :=
  ⟨cosine_zero_norm_behavior.1 ⟨0, [1], [.fin 0]⟩ ⟨1, [1], [.fin 1]⟩
      (Or.inl (by with_unfolding_all rfl)),
    cosine_zero_norm_behavior.2 ⟨0, [1], [.fin 0]⟩ ⟨1, [1], [.fin 1]⟩ rfl rfl
      (Or.inl (by with_unfolding_all rfl))⟩

/-- C5 witness: adding a `[3]` vector and a `[5]` vector through the
theorem yields the `[5]` vector padded with zeros on the short side. -/
theorem add_relaxed_spec_witness :
    add_relaxed ⟨10, [3], [.fin 1, .fin 2, .fin 3]⟩
      ⟨11, [5], [.fin 10, .fin 20, .fin 30, .fin 40, .fin 50]⟩ 12 =
      .ok ⟨12, [5], [.fin 11, .fin 22, .fin 33, .fin 40, .fin 50]⟩ :=
  ((add_relaxed_spec ⟨10, [3], [.fin 1, .fin 2, .fin 3]⟩
      ⟨11, [5], [.fin 10, .fin 20, .fin 30, .fin 40, .fin 50]⟩ 12
      (by decide) (by decide)).1 (by rfl) (by rfl)).trans
    (by with_unfolding_all rfl)

end VectorDb
